import Mathlib

/-!
# SplitMind orchestrator core: a shallow embedding

This file embeds the core data model and operations of the SplitMind agent
orchestrator (task-file parsing and serialization, the scheduler's queue
management and agent spawning, the merge queue with its dependency gate and
structured conflict resolvers, the coordination store's agent listing, and the
orchestrator start-up sequence) and proves or refutes the specification's
claims about them.

Python strings are modelled as lists of characters (`PyStr`), with executable
models of the string operations the source uses (`strip`, `startswith`,
`replace`, `split`, `join`, `int()`, `str()`).  Machine integers are `Int`
(Python integers are unbounded, so no overflow modelling is needed).  External
effects (git, tmux, Redis) are passed in as explicit oracle parameters.
-/

set_option maxRecDepth 10000

/-- Python strings, modelled as lists of characters. -/
abbrev PyStr := List Char

namespace Py

/-- Characters removed by Python's `str.strip()` (whitespace). -/
def isSpaceChar (c : Char) : Bool :=
  c == ' ' || c == '\t' || c == '\n' || c == '\r' || c == '\x0b' || c == '\x0c'

/-- Drop trailing characters satisfying `p`. -/
def dropRightWhile (p : Char → Bool) (s : PyStr) : PyStr :=
  (s.reverse.dropWhile p).reverse

/-- Python `str.strip()`: remove leading and trailing whitespace. -/
def strip (s : PyStr) : PyStr :=
  dropRightWhile isSpaceChar (s.dropWhile isSpaceChar)

/-- Python `str.strip(chars)`: remove leading and trailing characters drawn from `cs`. -/
def stripChars (cs : List Char) (s : PyStr) : PyStr :=
  dropRightWhile (fun c => cs.contains c) (s.dropWhile (fun c => cs.contains c))

/-- Python `s.startswith(pre)`: `startsWith pre s`. -/
def startsWith : PyStr → PyStr → Bool
  | [], _ => true
  | _ :: _, [] => false
  | p :: pr, c :: cs => p == c && startsWith pr cs

/-- Python substring containment (`pat in s`). -/
def hasSub (pat : PyStr) : PyStr → Bool
  | [] => pat.isEmpty
  | c :: rest => startsWith pat (c :: rest) || hasSub pat rest

/-- Worker for `replace`, structurally recursive on a fuel argument so that it
reduces in the kernel; `replace` supplies fuel equal to the string length,
which always suffices because each step consumes at least one character. -/
def replaceAux (old new : PyStr) : Nat → PyStr → PyStr
  | 0, s => s
  | _ + 1, [] => []
  | fuel + 1, c :: rest =>
    if old ≠ [] ∧ startsWith old (c :: rest) then
      new ++ replaceAux old new fuel ((c :: rest).drop old.length)
    else
      c :: replaceAux old new fuel rest

/-- Python `str.replace(old, new)`: replace all non-overlapping occurrences,
scanning left to right.  (For `old = ""` the source never calls it; the model
returns the string unchanged.) -/
def replace (old new s : PyStr) : PyStr := replaceAux old new s.length s

/-- Python `str.split(sep)` for a single-character separator. -/
def splitChar (sep : Char) : PyStr → List PyStr
  | [] => [[]]
  | c :: rest =>
    match splitChar sep rest with
    | [] => []
    | h :: t => if c == sep then [] :: h :: t else (c :: h) :: t

/-- Python `str.lower()` (ASCII behaviour). -/
def lower (s : PyStr) : PyStr := s.map Char.toLower

/-- Numeric value of a decimal digit character. -/
def digitVal (c : Char) : Nat := c.toNat - 48

/-- Accumulating decimal parser: fails on any non-digit character. -/
def digitsToNatAux (acc : Nat) : PyStr → Option Nat
  | [] => some acc
  | c :: rest => if c.isDigit then digitsToNatAux (acc * 10 + digitVal c) rest else none

/-- Parse a nonempty all-digit string as a natural number. -/
def digitsToNat : PyStr → Option Nat
  | [] => none
  | c :: rest => digitsToNatAux 0 (c :: rest)

/-- Model of Python `int(s)` on stripped input: optional sign then decimal
digits.  (Python's underscore digit separators are not modelled; the source
only ever round-trips integers it printed itself.) -/
def toInt (s : PyStr) : Option Int :=
  match s with
  | [] => none
  | c :: rest =>
    if c = '-' then (digitsToNat rest).map (fun n => -(n : Int))
    else if c = '+' then (digitsToNat rest).map (fun n => (n : Int))
    else (digitsToNat (c :: rest)).map (fun n => (n : Int))

/-- Worker for `natRepr`; fuel-based for kernel reduction. -/
def natReprAux : Nat → Nat → PyStr
  | 0, _ => []
  | fuel + 1, n =>
    if n < 10 then [Nat.digitChar n]
    else natReprAux fuel (n / 10) ++ [Nat.digitChar (n % 10)]

/-- Decimal representation of a natural number (Python `str(n)` for `n ≥ 0`). -/
def natRepr (n : Nat) : PyStr := natReprAux (n + 1) n

/-- Model of Python `str(i)` for integers. -/
def intRepr (i : Int) : PyStr :=
  if i < 0 then '-' :: natRepr i.natAbs else natRepr i.toNat

/-- Python `sep.join(items)`. -/
def pyJoin (sep : PyStr) : List PyStr → PyStr
  | [] => []
  | [x] => x
  | x :: y :: rest => x ++ sep ++ pyJoin sep (y :: rest)

end Py

namespace SM

/-! ## Task data model (models.py) -/

/-- Task status enumeration (`models.py`, `TaskStatus`). -/
inductive TaskStatus where
  | unclaimed
  | upNext
  | inProgress
  | completed
  | merged
deriving DecidableEq, Repr

/-- The on-disk string value of each status (the `str`-enum values). -/
def TaskStatus.value : TaskStatus → PyStr
  | .unclaimed => "unclaimed".data
  | .upNext => "up_next".data
  | .inProgress => "in_progress".data
  | .completed => "completed".data
  | .merged => "merged".data

/-- `TaskStatus(s)`: look a status up by its string value; `none` models the
`ValueError` branch. -/
def statusOfStr (s : PyStr) : Option TaskStatus :=
  if s = "unclaimed".data then some .unclaimed
  else if s = "up_next".data then some .upNext
  else if s = "in_progress".data then some .inProgress
  else if s = "completed".data then some .completed
  else if s = "merged".data then some .merged
  else none

/-- The persisted fields of `models.py`'s `Task`.  The timestamp fields
(`created_at`, `updated_at`, `completed_at`, `merged_at`) are not written by
`save_tasks` nor read by `get_tasks` (they default to clock values), so they
are omitted from the embedding. -/
structure Task where
  id : PyStr
  task_id : Option Int
  title : PyStr
  status : TaskStatus
  branch : PyStr
  session : Option PyStr
  description : Option PyStr
  prompt : Option PyStr
  dependencies : List PyStr
  priority : Int
  merge_order : Int
  exclusive_files : List PyStr
  shared_files : List PyStr
  initialization_deps : List PyStr
deriving DecidableEq, Repr

/-- The dictionary `get_tasks` builds per `## Task:` block before converting to
a `Task` model (branch still optional; `prompt` absent until a prompt line is
seen, which coincides with the model default `None`). -/
structure RawTask where
  id : PyStr
  task_id : Option Int
  title : PyStr
  status : TaskStatus
  branch : Option PyStr
  session : Option PyStr
  description : Option PyStr
  prompt : Option PyStr
  dependencies : List PyStr
  priority : Int
  merge_order : Int
  exclusive_files : List PyStr
  shared_files : List PyStr
  initialization_deps : List PyStr
deriving DecidableEq, Repr

/-! ## Task file parsing (project_manager.py, ProjectManager.get_tasks) -/

/-- The field-line prefixes of the task file format. -/
def kHeader : PyStr := "## Task:".data

def kDash : PyStr := "- ".data

def kTaskId : PyStr := "- task_id:".data

def kStatus : PyStr := "- status:".data

def kBranch : PyStr := "- branch:".data

def kSession : PyStr := "- session:".data

def kDescription : PyStr := "- description:".data

def kPrompt : PyStr := "- prompt:".data

def kDependencies : PyStr := "- dependencies:".data

def kPriority : PyStr := "- priority:".data

def kMergeOrder : PyStr := "- merge_order:".data

def kExclusive : PyStr := "- exclusive_files:".data

def kShared : PyStr := "- shared_files:".data

def kInit : PyStr := "- initialization_deps:".data

def nullLit : PyStr := "null".data

def noneLit : PyStr := "None".data

def emptyListLit : PyStr := "[]".data

/-- `ProjectManager._sanitize_task_id`: replace slashes and backslashes by
dashes and ampersands by `and`. -/
def sanitizeTaskId (s : PyStr) : PyStr :=
  Py.replace ['&'] ('a' :: 'n' :: 'd' :: [])
    (Py.replace ['\\'] ['-'] (Py.replace ['/'] ['-'] s))

/-- The fresh per-block dictionary created on a `## Task:` line. -/
def initRaw (title : PyStr) : RawTask :=
  { id := sanitizeTaskId (Py.replace [' '] ['-'] (Py.lower title)),
    task_id := none, title := title, status := .unclaimed, branch := none,
    session := none, description := none, prompt := none, dependencies := [],
    priority := 0, merge_order := 0, exclusive_files := [], shared_files := [],
    initialization_deps := [] }

/-- `deps_str.strip("[]").split(",")`, stripping elements and dropping empties. -/
def parseBracketList (s : PyStr) : List PyStr :=
  ((Py.splitChar ',' (Py.stripChars ('[' :: ']' :: []) s)).map Py.strip).filter
    (fun d => d ≠ [])

/-- The value of a `- key: value` line: the key removed everywhere (Python's
`line.replace(key, "")`), then stripped. -/
def lineVal (key line : PyStr) : PyStr := Py.strip (Py.replace key [] line)

/-- The `elif` chain of `get_tasks` applied to one (already stripped) line that
starts with `"- "`, updating the current block and the running `max_task_id`. -/
def applyField (t : RawTask) (m : Int) (line : PyStr) : RawTask × Int :=
  if Py.startsWith kTaskId line then
    match Py.toInt (lineVal kTaskId line) with
    | some n => ({ t with task_id := some n }, max m n)
    | none => (t, m)
  else if Py.startsWith kStatus line then
    ({ t with status := (statusOfStr (lineVal kStatus line)).getD .unclaimed }, m)
  else if Py.startsWith kBranch line then
    let b := lineVal kBranch line
    if b = nullLit then (t, m) else ({ t with branch := some (sanitizeTaskId b) }, m)
  else if Py.startsWith kSession line then
    let s := lineVal kSession line
    if s = nullLit then (t, m) else ({ t with session := some s }, m)
  else if Py.startsWith kDescription line then
    ({ t with description := some (lineVal kDescription line) }, m)
  else if Py.startsWith kPrompt line then
    ({ t with prompt := some (lineVal kPrompt line) }, m)
  else if Py.startsWith kDependencies line then
    let s := lineVal kDependencies line
    if s ≠ [] ∧ s ≠ emptyListLit then ({ t with dependencies := parseBracketList s }, m)
    else (t, m)
  else if Py.startsWith kPriority line then
    match Py.toInt (lineVal kPriority line) with
    | some n => ({ t with priority := n }, m)
    | none => ({ t with priority := 0 }, m)
  else if Py.startsWith kMergeOrder line then
    match Py.toInt (lineVal kMergeOrder line) with
    | some n => ({ t with merge_order := n }, m)
    | none => ({ t with merge_order := 0 }, m)
  else if Py.startsWith kExclusive line then
    let s := lineVal kExclusive line
    if s ≠ [] ∧ s ≠ emptyListLit then ({ t with exclusive_files := parseBracketList s }, m)
    else (t, m)
  else if Py.startsWith kShared line then
    let s := lineVal kShared line
    if s ≠ [] ∧ s ≠ emptyListLit then ({ t with shared_files := parseBracketList s }, m)
    else (t, m)
  else if Py.startsWith kInit line then
    let s := lineVal kInit line
    if s ≠ [] ∧ s ≠ emptyListLit then ({ t with initialization_deps := parseBracketList s }, m)
    else (t, m)
  else (t, m)

/-- Parse state: the finished blocks in order, the current block, and the
running maximum explicit `task_id`. -/
structure PState where
  acc : List RawTask
  cur : Option RawTask
  maxId : Int
deriving Repr

/-- Flush the current block (appending it to the accumulator), as done on each
new `## Task:` header and at end of file. -/
def flushCur (st : PState) : List RawTask :=
  st.acc ++ (match st.cur with | some t => [t] | none => [])

/-- One iteration of the `for line in f` loop of `get_tasks`. -/
def lineStep (st : PState) (rawLine : PyStr) : PState :=
  let line := Py.strip rawLine
  if Py.startsWith kHeader line then
    { acc := flushCur st, cur := some (initRaw (lineVal kHeader line)), maxId := st.maxId }
  else
    match st.cur with
    | some t =>
      if Py.startsWith kDash line then
        let p := applyField t st.maxId line
        { st with cur := some p.1, maxId := p.2 }
      else st
    | none => st

/-- Assign `max_task_id + 1, max_task_id + 2, …` to blocks with no explicit
`task_id`, in order. -/
def assignIds : Int → List RawTask → List RawTask
  | _, [] => []
  | m, t :: rest =>
    match t.task_id with
    | some _ => t :: assignIds m rest
    | none => { t with task_id := some (m + 1) } :: assignIds (m + 1) rest

/-- `Task(**task) for task in tasks if task.get("branch")`: drop blocks without
a branch and convert the rest. -/
def finalize (ts : List RawTask) : List Task :=
  ts.filterMap (fun t =>
    match t.branch with
    | some b =>
      some { id := t.id, task_id := t.task_id, title := t.title, status := t.status,
             branch := b, session := t.session, description := t.description,
             prompt := t.prompt, dependencies := t.dependencies, priority := t.priority,
             merge_order := t.merge_order, exclusive_files := t.exclusive_files,
             shared_files := t.shared_files, initialization_deps := t.initialization_deps }
    | none => none)

/-- The sort key `(t.priority if t.priority is not None else 10, t.task_id or 0)`.
In the embedding `priority` is always an `Int` (as in the parsed dictionaries),
so the `None` fallback never fires; `t.task_id or 0` agrees with `getD 0`
because `task_id = 0` also yields key `0`. -/
def taskLe (a b : Task) : Prop :=
  a.priority < b.priority ∨
    (a.priority = b.priority ∧ a.task_id.getD 0 ≤ b.task_id.getD 0)

instance : DecidableRel taskLe := fun a b => by
  unfold taskLe
  infer_instance

instance : IsTotal Task taskLe := by
  constructor
  intro a b
  unfold taskLe
  omega

instance : IsTrans Task taskLe := by
  constructor
  intro a b c hab hbc
  unfold taskLe at *
  omega

/-- Python's stable sort by `(priority, task_id or 0)`, modelled by insertion
sort (any two stable sorts of the same total preorder agree). -/
def sortTasks (ts : List Task) : List Task := List.insertionSort taskLe ts

/-- `ProjectManager.get_tasks`, given the lines of `tasks.md` (the missing-file
early return is outside the embedding). -/
def getTasks (lines : List PyStr) : List Task :=
  let st := lines.foldl lineStep ⟨[], none, 0⟩
  sortTasks (finalize (assignIds st.maxId (flushCur st)))

/-! ## Task file serialization (project_manager.py, ProjectManager.save_tasks) -/

/-- `task.session or 'null'`: `None` and the empty string both print as `null`. -/
def sessionVal : Option PyStr → PyStr
  | some v => if v = [] then nullLit else v
  | none => nullLit

/-- `f"{task.task_id}"` for an optional integer. -/
def optIntRepr : Option Int → PyStr
  | some n => Py.intRepr n
  | none => noneLit

/-- `"[" + ", ".join(xs) + "]"`. -/
def brackets (xs : List PyStr) : PyStr :=
  '[' :: (Py.pyJoin (',' :: ' ' :: []) xs ++ ([']'] : PyStr))

/-- The single space separating a key from its value in a serialized line. -/
def sp1 : PyStr := [' ']

/-- `if task.field: content.append(f"- key: {value}")` for an optional string
field (Python truthiness: `None` and the empty string both suppress the line). -/
def optLine (key : PyStr) : Option PyStr → List PyStr
  | some d => if d ≠ [] then [(key ++ sp1) ++ d] else []
  | none => []

/-- `if task.field: content.append(...)` for a list field (empty list is falsy). -/
def listLine (key : PyStr) (xs : List PyStr) : List PyStr :=
  if xs ≠ [] then [(key ++ sp1) ++ brackets xs] else []

/-- `if task.field: content.append(...)` for an int field (`0` is falsy; the
parsed value is never `None`). -/
def intLine (key : PyStr) (p : Int) : List PyStr :=
  if 0 < p then [(key ++ sp1) ++ Py.intRepr p] else []

/-- The `content.append(...)` lines emitted for one task (everything between
the title item and the trailing empty item). -/
def taskLines (t : Task) : List PyStr :=
  [kTaskId ++ sp1 ++ optIntRepr t.task_id,
   kStatus ++ sp1 ++ TaskStatus.value t.status,
   kBranch ++ sp1 ++ t.branch,
   kSession ++ sp1 ++ sessionVal t.session]
  ++ optLine kDescription t.description
  ++ optLine kPrompt t.prompt
  ++ listLine kDependencies t.dependencies
  ++ intLine kPriority t.priority
  ++ intLine kMergeOrder t.merge_order
  ++ listLine kExclusive t.exclusive_files
  ++ listLine kShared t.shared_files
  ++ listLine kInit t.initialization_deps

/-- The `content` list built by `save_tasks` (items may contain embedded
newlines, exactly as in the source: `"# tasks.md\n"` and `"\n## Task: {title}\n"`). -/
def saveContent (tasks : List Task) : List PyStr :=
  ("# tasks.md\n").data ::
    (sortTasks tasks).flatMap (fun t =>
      ('\n' :: (kHeader ++ sp1 ++ t.title) ++ ['\n']) :: taskLines t ++ [[]])

/-- The lines of the file written by `save_tasks`: the content items joined
with newlines, then split back into lines as reading the file does.  (Reading
the file never yields the empty tail after a final newline; that tail appears
here as one extra empty line, which the parser ignores.) -/
def saveLines (tasks : List Task) : List PyStr :=
  Py.splitChar '\n' (Py.pyJoin ['\n'] (saveContent tasks))

/-! Sanity examples for the parser and serializer on a tiny concrete file. -/

example :
    Py.strip (' ' :: '-' :: ' ' :: 'x' :: ' ' :: []) = ('-' :: ' ' :: 'x' :: []) := by
  decide

example : Py.toInt ('4' :: '2' :: []) = some 42 := by decide

example : Py.intRepr (-7) = ('-' :: '7' :: []) := by decide

example : Py.intRepr 120 = ('1' :: '2' :: '0' :: []) := by decide

/-! ## Static task configuration (task_config.py) -/

/-- One entry of `TASK_DEFINITIONS`. -/
structure TaskDef where
  title : PyStr
  priority : Int
  merge_order : Int
  exclusive_files : List PyStr
  shared_files : List PyStr
  initialization_deps : List PyStr
  setup_commands : List PyStr
deriving DecidableEq, Repr

/-- Dictionary lookup (first match; the table has distinct keys). -/
def dictFindDef (d : List (PyStr × TaskDef)) (k : PyStr) : Option TaskDef :=
  (d.find? (fun p => p.1 = k)).map (fun p => p.2)

/-- The static `TASK_DEFINITIONS` table of `task_config.py`. -/
def TASK_DEFINITIONS : List (PyStr × TaskDef) :=
  [ ( "base-html".data,
      { title := "Base HTML".data, priority := 10, merge_order := 1,
        exclusive_files := [ "index.html".data ], shared_files := [],
        initialization_deps := [], setup_commands := [] } ),
    ( "base-css".data,
      { title := "Base CSS".data, priority := 10, merge_order := 2,
        exclusive_files := [ "styles.css".data ], shared_files := [],
        initialization_deps := [], setup_commands := [] } ),
    ( "header-component".data,
      { title := "Header Component".data, priority := 8, merge_order := 5,
        exclusive_files := [ "components/header.css".data ],
        shared_files := [ "index.html".data ],
        initialization_deps := [ "base-html".data ], setup_commands := [] } ),
    ( "footer-component".data,
      { title := "Footer Component".data, priority := 8, merge_order := 6,
        exclusive_files := [ "components/footer.css".data ],
        shared_files := [ "index.html".data ],
        initialization_deps := [ "base-html".data ], setup_commands := [] } ),
    ( "theme-styles".data,
      { title := "Theme Styles".data, priority := 7, merge_order := 7,
        exclusive_files := [ "components/theme.css".data ],
        shared_files := [ "styles.css".data ],
        initialization_deps := [ "base-css".data ], setup_commands := [] } ),
    ( "javascript-base".data,
      { title := "JavaScript Base".data, priority := 9, merge_order := 3,
        exclusive_files := [ "script.js".data ], shared_files := [],
        initialization_deps := [], setup_commands := [] } ),
    ( "data-file".data,
      { title := "Data File".data, priority := 9, merge_order := 4,
        exclusive_files := [ "data/content.json".data ], shared_files := [],
        initialization_deps := [], setup_commands := [] } ),
    ( "main-content".data,
      { title := "Main Content".data, priority := 6, merge_order := 8,
        exclusive_files := [ "components/main.css".data ],
        shared_files := [ "index.html".data ],
        initialization_deps := [ "header-component".data, "footer-component".data ],
        setup_commands := [] } ),
    ( "interactive-features".data,
      { title := "Interactive Features".data, priority := 5, merge_order := 9,
        exclusive_files := [ "components/interactive.js".data ],
        shared_files := [ "script.js".data ],
        initialization_deps := [ "javascript-base".data, "main-content".data ],
        setup_commands := [] } ),
    ( "final-integration".data,
      { title := "Final Integration".data, priority := 4, merge_order := 10,
        exclusive_files := [], shared_files := [ "index.html".data ],
        initialization_deps := [ "main-content".data, "interactive-features".data ],
        setup_commands := [] } ),
    ( "framework".data,
      { title := "Next.js 14 Framework Setup".data, priority := 10, merge_order := 1,
        exclusive_files :=
          [ "next.config.ts".data, "next.config.js".data, "tsconfig.json".data,
            "src/app/layout.tsx".data, "src/app/page.tsx".data, "src/app/*.tsx".data,
            "src/app/*.ts".data, "public/".data ],
        shared_files := [ "package.json".data, "README.md".data, ".gitignore".data ],
        initialization_deps := [],
        setup_commands := [ "pnpm install".data, "pnpm next telemetry disable".data ] } ),
    ( "styling".data,
      { title := "TailwindCSS Configuration".data, priority := 9, merge_order := 2,
        exclusive_files :=
          [ "tailwind.config.ts".data, "tailwind.config.js".data,
            "postcss.config.mjs".data, "postcss.config.js".data, "src/styles/".data,
            "src/app/globals.css".data ],
        shared_files := [ "package.json".data ],
        initialization_deps := [ "framework".data ],
        setup_commands := [ "pnpm install".data ] } ),
    ( "ui-components".data,
      { title := "ShadCN/UI Components".data, priority := 8, merge_order := 3,
        exclusive_files :=
          [ "src/components/".data, "components/".data, "components.json".data,
            "lib/utils.ts".data ],
        shared_files := [ "package.json".data ],
        initialization_deps := [ "framework".data, "styling".data ],
        setup_commands := [ "pnpm install".data, "pnpx shadcn-ui@latest init -y".data ] } ),
    ( "package-manager".data,
      { title := "Package Manager Setup".data, priority := 10, merge_order := 0,
        exclusive_files := [ ".npmrc".data, ".nvmrc".data, "pnpm-workspace.yaml".data ],
        shared_files := [ "package.json".data, ".gitignore".data ],
        initialization_deps := [], setup_commands := [] } ),
    ( "code-quality".data,
      { title := "ESLint + Prettier".data, priority := 7, merge_order := 4,
        exclusive_files :=
          [ "eslint.config.mjs".data, "eslint.config.js".data, ".eslintrc.js".data,
            ".eslintrc.json".data, ".prettierrc".data, ".prettierrc.json".data,
            ".editorconfig".data ],
        shared_files := [ "package.json".data ],
        initialization_deps := [ "framework".data ],
        setup_commands := [ "pnpm install".data ] } ),
    ( "type-safety".data,
      { title := "TypeScript Configuration".data, priority := 8, merge_order := 5,
        exclusive_files := [ "src/types/".data, "types/".data, "global.d.ts".data ],
        shared_files := [ "tsconfig.json".data, "package.json".data ],
        initialization_deps := [ "framework".data ],
        setup_commands := [ "pnpm install".data ] } ) ]

/-- Truthiness of a Python set intersection: the two lists share an element. -/
def setInterNonempty (a b : List PyStr) : Bool := a.any (fun x => b.contains x)

/-- `task_config.can_tasks_run_concurrently`: unknown ids are assumed runnable;
otherwise the declared exclusive/shared pattern sets must not intersect. -/
def canTasksRunConcurrently (t1 t2 : PyStr) : Bool :=
  match dictFindDef TASK_DEFINITIONS t1, dictFindDef TASK_DEFINITIONS t2 with
  | some d1, some d2 =>
    if setInterNonempty d1.exclusive_files d2.exclusive_files then false
    else if setInterNonempty d1.exclusive_files d2.shared_files
            || setInterNonempty d2.exclusive_files d1.shared_files then false
    else true
  | _, _ => true

/-! ## Scheduler (orchestrator.py) -/

/-- `len([t for t in tasks if t.status == TaskStatus.IN_PROGRESS])`. -/
def countInProgress (ts : List Task) : Nat :=
  (ts.filter (fun t => t.status = .inProgress)).length

/-- `len([t for t in tasks if t.status == TaskStatus.UP_NEXT])`. -/
def countUpNext (ts : List Task) : Nat :=
  (ts.filter (fun t => t.status = .upNext)).length

/-- `pm.update_task(task.id, patch)`: patch the first task whose id matches. -/
def updateFirst : List Task → PyStr → (Task → Task) → List Task
  | [], _, _ => []
  | t :: rest, tid, f =>
    if t.id = tid then f t :: rest else t :: updateFirst rest tid f

/-- The promotion/spawn sort key `(priority asc, merge_order desc)`. -/
def spawnLe (a b : Task) : Prop :=
  a.priority < b.priority ∨ (a.priority = b.priority ∧ b.merge_order ≤ a.merge_order)

instance : DecidableRel spawnLe := fun a b => by
  unfold spawnLe
  infer_instance

instance : IsTotal Task spawnLe := by
  constructor
  intro a b
  unfold spawnLe
  omega

instance : IsTrans Task spawnLe := by
  constructor
  intro a b c hab hbc
  unfold spawnLe at *
  omega

/-- The demotion sort key `(-priority, merge_order)` (lowest priority first). -/
def demoteLe (a b : Task) : Prop :=
  b.priority < a.priority ∨ (a.priority = b.priority ∧ a.merge_order ≤ b.merge_order)

instance : DecidableRel demoteLe := fun a b => by
  unfold demoteLe
  infer_instance

instance : IsTotal Task demoteLe := by
  constructor
  intro a b
  unfold demoteLe
  omega

instance : IsTrans Task demoteLe := by
  constructor
  intro a b c hab hbc
  unfold demoteLe at *
  omega

/-- Dependency eligibility for promotion (`_manage_task_queue`): a dependency
blocks only when a task with that id exists and is neither completed nor
merged. -/
def depsEligible (ts : List Task) (t : Task) : Bool :=
  t.dependencies.all (fun dep =>
    match ts.find? (fun x => x.id = dep) with
    | some d => d.status = .completed ∨ d.status = .merged
    | none => true)

/-- `_manage_task_queue`: top up `up_next` to the target from eligible
unclaimed tasks, or demote the surplus back to unclaimed. -/
def manageQueue (maxConc maxAgents : Int) (ts : List Task) : List Task :=
  let target := min maxConc maxAgents
  let upNextCount := (countUpNext ts : Int)
  if upNextCount < target then
    let eligible := ts.filter (fun t => t.status = .unclaimed ∧ depsEligible ts t = true)
    let toPromote := (List.insertionSort spawnLe eligible).take
      (Nat.min (target - upNextCount).toNat eligible.length)
    toPromote.foldl (fun acc t => updateFirst acc t.id (fun x => { x with status := .upNext })) ts
  else if target < upNextCount then
    let surplus := ts.filter (fun t => t.status = .upNext)
    let toDemote := (List.insertionSort demoteLe surplus).take (upNextCount - target).toNat
    toDemote.foldl (fun acc t => updateFirst acc t.id (fun x => { x with status := .unclaimed })) ts
  else ts

/-- `running_tasks` of `_spawn_agents`. -/
def runningTasks (ts : List Task) : List Task :=
  ts.filter (fun t => t.status = .inProgress)

/-- A candidate conflicts when it cannot run concurrently with some currently
running task. -/
def conflictsWithRunning (running : List Task) (t : Task) : Bool :=
  running.any (fun r => !(canTasksRunConcurrently t.id r.id))

/-- The non-conflicting `up_next` tasks collected by `_spawn_agents`, in list
order (the conflict check is made only against tasks already `in_progress` at
the start of the step). -/
def spawnCandidates (ts : List Task) : List Task :=
  ts.filter (fun t => t.status = .upNext ∧ conflictsWithRunning (runningTasks ts) t = false)

/-- The session name generated for a spawned task:
`f"{task.task_id}-{project.id}"`, falling back to
`f"{project.id}-{task.branch}"` when `task.task_id` is falsy (absent or 0). -/
def sessionName (projId : PyStr) (t : Task) : PyStr :=
  match t.task_id with
  | some n => if n = 0 then projId ++ ('-' :: t.branch) else Py.intRepr n ++ ('-' :: projId)
  | none => projId ++ ('-' :: t.branch)

/-- The tasks `_spawn_agents` decides to spawn this tick: the sorted
non-conflicting `up_next` tasks, truncated to the available working slots
(`min(max_concurrent_agents, project.max_agents) − in_progress`). -/
def spawnSelected (maxConc maxAgents : Int) (ts : List Task) : List Task :=
  let slots := min maxConc maxAgents - (countInProgress ts : Int)
  if slots ≤ 0 then []
  else
    let cands := spawnCandidates ts
    (List.insertionSort spawnLe cands).take (Nat.min cands.length slots.toNat)

/-- `_spawn_agents`: each selected task for which the spawn succeeds
(`spawnOk`) is moved to `in_progress` with its session recorded; a failed
spawn leaves the task `up_next` (the error is only reported). -/
def spawnAgents (projId : PyStr) (spawnOk : Task → Bool) (maxConc maxAgents : Int)
    (ts : List Task) : List Task :=
  (spawnSelected maxConc maxAgents ts).foldl
    (fun acc t =>
      if spawnOk t then
        updateFirst acc t.id
          (fun x => { x with status := .inProgress, session := some (sessionName projId t) })
      else acc)
    ts

/-! ## Agent status checking (orchestrator.py, _check_agent_status) -/

/-- The external signals `_check_agent_status` consults for one task. -/
structure AgentEnv where
  redisNotice : Bool
  statusFile : Option PyStr
  sessionExists : Bool
  capturedDone : Bool
  hasCommits : Bool
deriving DecidableEq, Repr

/-- `_check_agent_status` for a single task.  Phase 1 consumes Redis completion
notices (killing the session, deleting the status file and marking the task
completed in the store); phase 2 then re-examines the *stale* in-memory task
(whose status and session fields were not mutated by phase 1) and issues the
final store update.  The store update issued last wins. -/
def checkAgentStatusTask (env : AgentEnv) (t : Task) : Task :=
  let db1 := if env.redisNotice then { t with status := .completed } else t
  let file1 := if env.redisNotice then none else env.statusFile
  let alive1 := env.sessionExists && !env.redisNotice
  if (t.status = .upNext ∨ t.status = .inProgress) ∧ t.session ≠ none then
    let fileCompleted : Bool :=
      match file1 with
      | some c => decide (Py.strip c = "COMPLETED".data)
      | none => false
    if fileCompleted then { db1 with status := .completed }
    else
      -- the capture-pane heuristic only runs when no status file exists
      let alive2 :=
        if file1 = none ∧ alive1 = true ∧ env.capturedDone = true then false else alive1
      if alive2 = false then
        if env.hasCommits then { db1 with status := .completed }
        else { db1 with status := .upNext, session := none }
      else db1
  else db1

/-- The status-check pass over the whole task list (task ids are unique per
project, so per-id store updates coincide with a positional map). -/
def checkAgentStatus (envOf : Task → AgentEnv) (ts : List Task) : List Task :=
  ts.map (fun t => checkAgentStatusTask (envOf t) t)

/-- One scheduler tick's task-store effect: queue management, then agent
spawning, then the agent status check.  The merge drain (step (e)) mutates only
in-memory queue copies and emits no store writes (see `processQueue`). -/
def schedulerTick (projId : PyStr) (spawnOk : Task → Bool) (envOf : Task → AgentEnv)
    (maxConc maxAgents : Int) (ts : List Task) : List Task :=
  checkAgentStatus envOf (spawnAgents projId spawnOk maxConc maxAgents
    (manageQueue maxConc maxAgents ts))

/-! ## Merge queue (merge_queue.py) -/

/-- The dependency gate of `MergeQueue.process_queue`: a dependency id blocks
the merge only when some task in `all_tasks` carries that id and its status is
not `merged`; an id matching no task does not block. -/
def depsMerged (allTasks : List Task) (t : Task) : Bool :=
  t.dependencies.all (fun dep =>
    match allTasks.find? (fun x => x.id = dep) with
    | some d => d.status = .merged
    | none => true)

/-- The keys of `self.conflict_resolvers` (the structured-resolver whitelist). -/
def mergeWhitelist : List PyStr :=
  [ "package.json".data, ".gitignore".data, "README.md".data ]

/-- The observable shape of one `git merge --no-ff` attempt: whether it merged
cleanly, and otherwise which files `git status --porcelain` reports as `UU`. -/
structure MergeAttempt where
  cleanMerge : Bool
  conflicts : List PyStr
deriving DecidableEq, Repr

/-- `MergeQueue.merge_task` outcome: a clean merge succeeds; otherwise every
conflicted file on the whitelist must be resolved by its structured resolver
(`resolverOk`), while every other conflicted file is auto-staged with
`checkout --theirs`.  If any whitelisted resolver fails, the merge is aborted
(`git merge --abort`) and the attempt fails. -/
def mergeTaskResult (a : MergeAttempt) (resolverOk : PyStr → Bool) : Bool :=
  if a.cleanMerge then true
  else a.conflicts.all (fun f => if f ∈ mergeWhitelist then resolverOk f else true)

/-- The trunk after `merge_task`: the merged trunk on success, and the original
trunk on failure (`git merge --abort` restores the pre-merge state). -/
def trunkAfterMerge {γ : Type} (trunk mergedTrunk : γ) (a : MergeAttempt)
    (resolverOk : PyStr → Bool) : γ :=
  if mergeTaskResult a resolverOk then mergedTrunk else trunk

/-- `MergeQueue.process_queue` on one drain: each queued task whose
dependencies pass the gate is merged when `merge_task` succeeds (`mergeOk`);
successes get status `merged` (on the in-memory copy) and leave the queue,
everything else stays queued.  The dependency gate reads the `all_tasks`
snapshot passed in.  Returns (merged tasks, remaining queue). -/
def processQueue (mergeOk : Task → Bool) (allTasks queue : List Task) :
    List Task × List Task :=
  ((queue.filter (fun t => depsMerged allTasks t = true ∧ mergeOk t = true)).map
     (fun t => { t with status := .merged }),
   queue.filter (fun t => ¬ (depsMerged allTasks t = true ∧ mergeOk t = true)))

/-- The event types broadcast during the merge drain
(`_check_and_merge_completed_tasks` plus `process_queue`): one
`task_queued_for_merge` per newly enqueued completed task, and nothing else —
`merge_queue.py` performs no event emission of its own, so no failure event
exists in this step. -/
def mergeDrainEvents (autoMerge : Bool) (ts queue : List Task) : List PyStr :=
  if autoMerge then
    (ts.filter (fun t => t.status = .completed ∧ queue.all (fun q => q.id ≠ t.id))).map
      (fun _ => "task_queued_for_merge".data)
  else []

/-! ## Structured resolver for the project manifest (merge_queue.py,
resolve_package_json) -/

/-- A minimal JSON value model. -/
inductive JVal where
  | str (s : PyStr)
  | num (n : Int)
  | bool (b : Bool)
  | null
  | arr (xs : List JVal)
  | obj (fields : List (PyStr × JVal))

/-- JSON objects as insertion-ordered key/value lists (Python dicts). -/
abbrev JObj := List (PyStr × JVal)

/-- Python `d[k] = v`: overwrite the (first) occurrence of the key in place,
preserving insertion order, else append. -/
def dictSet : JObj → PyStr → JVal → JObj
  | [], k, v => [(k, v)]
  | p :: rest, k, v => if p.1 = k then (k, v) :: rest else p :: dictSet rest k v

/-- Python `{**a, **b}`: start from `a` and insert every entry of `b` in order. -/
def dictMerge (a b : JObj) : JObj :=
  b.foldl (fun acc p => dictSet acc p.1 p.2) a

/-- Python `d.get(k)` as a first-match lookup (parsed dicts have unique keys). -/
def dictGet (d : JObj) (k : PyStr) : Option JVal :=
  (d.find? (fun p => p.1 = k)).map (fun p => p.2)

/-- `j.get(key, {})` followed by dict-unpacking: absent keys default to the
empty dict, non-object values raise (modelled as `none`). -/
def getSectionD (j : JObj) (k : PyStr) : Option JObj :=
  match dictGet j k with
  | none => some []
  | some (.obj d) => some d
  | some _ => none

def depsKey : PyStr := "dependencies".data

def devDepsKey : PyStr := "devDependencies".data

def scriptsKey : PyStr := "scripts".data

/-- The pure core of `MergeQueue.resolve_package_json` on the three parsed
versions: `merged = ours.copy()`, then for each of `dependencies` and
`devDependencies` the section becomes `{**base[s], **ours[s], **theirs[s]}`,
and `scripts` becomes `{**ours[s], **theirs[s]}`.  Any dict-unpacking of a
non-object value makes the resolver fail (`none`). -/
def resolvePackageJson (base ours theirs : JObj) : Option JObj :=
  match getSectionD base depsKey, getSectionD ours depsKey, getSectionD theirs depsKey,
        getSectionD base devDepsKey, getSectionD ours devDepsKey,
        getSectionD theirs devDepsKey,
        getSectionD ours scriptsKey, getSectionD theirs scriptsKey with
  | some bd, some od, some td, some bv, some ov, some tv, some os, some tscr =>
    some (dictSet
           (dictSet
             (dictSet ours depsKey (.obj (dictMerge (dictMerge bd od) td)))
             devDepsKey (.obj (dictMerge (dictMerge bv ov) tv)))
           scriptsKey (.obj (dictMerge os tscr)))
  | _, _, _, _, _, _, _, _ => none

/-! ## Coordination store: list_active_agents
(testing/complete-mcp-server-redis.py, call_tool) -/

/-- The agent record stored by `register_agent`. -/
structure AgentRecord where
  task_id : PyStr
  branch : PyStr
  description : PyStr
  status : PyStr
  started_at : PyStr
deriving DecidableEq, Repr

/-- One entry of the `list_active_agents` response. -/
structure AgentEntry where
  session_name : PyStr
  task_id : PyStr
  description : PyStr
  branch : PyStr
deriving DecidableEq, Repr

/-- The `list_active_agents` tool: it iterates the whole per-project agents
hash and returns every registered session.  No heartbeat is consulted. -/
def listActiveAgents (agents : List (PyStr × AgentRecord)) : List AgentEntry :=
  agents.map (fun p =>
    { session_name := p.1, task_id := p.2.task_id, description := p.2.description,
      branch := p.2.branch })

/-- Modelled from the spec: the sessions of a project whose last heartbeat is
less than 2 minutes old (timestamps in minutes); a session with no recorded
heartbeat is not alive.  Used to state the claim's intended result. -/
def specAliveSessions (agents : List (PyStr × AgentRecord))
    (heartbeats : List (PyStr × Int)) (now : Int) : List PyStr :=
  (agents.filter (fun p =>
    match (heartbeats.find? (fun q => q.1 = p.1)).map (fun q => q.2) with
    | some hb => decide (now - hb < 2)
    | none => false)).map (fun p => p.1)

/-! ## Orchestrator start-up (orchestrator.py, OrchestratorManager.start) -/

/-- Arity of a Python callable: positional parameters (excluding `self`) and
how many of them carry defaults. -/
structure PyCallable where
  params : Nat
  defaults : Nat
deriving DecidableEq, Repr

/-- A Python call with `n` positional arguments binds iff
`params - defaults ≤ n ≤ params`; otherwise it raises `TypeError`. -/
def acceptsArgs (f : PyCallable) (n : Nat) : Bool :=
  decide (f.params - f.defaults ≤ n ∧ n ≤ f.params)

/-- `MergeQueue.__init__(self, project_path)`: one parameter, no defaults. -/
def mergeQueueInitSig : PyCallable := { params := 1, defaults := 0 }

/-- The number of arguments `OrchestratorManager.start` passes to
`MergeQueue(...)`: the project path and the status-update callback. -/
def mergeQueueCallArgs : Nat := 2

inductive StartError where
  | alreadyRunning
  | projectNotFound
  | typeError
deriving DecidableEq, Repr

/-- The observable prerequisites of `OrchestratorManager.start`. -/
structure StartState where
  running : Bool
  projectFound : Bool
deriving DecidableEq, Repr

/-- `OrchestratorManager.start`: reject when already running or the project is
unknown; then construct the merge queue — whose `__init__` cannot bind the two
arguments passed — and only afterwards create the scheduler-loop task.
Returns `true` exactly when the loop task was created. -/
def orchestratorStart (st : StartState) : Except StartError Bool :=
  if st.running then .error .alreadyRunning
  else if st.projectFound = false then .error .projectNotFound
  else if acceptsArgs mergeQueueInitSig mergeQueueCallArgs = false then .error .typeError
  else .ok true

/-! ## Generic helper lemmas -/

/-- First-of-two option combinator, used to state merge-preference results. -/
def orO {α : Type} : Option α → Option α → Option α
  | some v, _ => some v
  | none, b => b

/-- A JSON object is well formed when its keys are pairwise distinct (always
true of dictionaries produced by `json.loads`). -/
def WfObj (d : JObj) : Prop := (d.map (fun p => p.1)).Nodup

instance (d : JObj) : Decidable (WfObj d) := by
  unfold WfObj
  infer_instance

theorem dictGet_cons (p : PyStr × JVal) (rest : JObj) (k : PyStr) :
    dictGet (p :: rest) k = if p.1 = k then some p.2 else dictGet rest k := by
  by_cases h : p.1 = k
  · simp [dictGet, List.find?, h]
  · simp [dictGet, List.find?, h]

theorem dictGet_dictSet (d : JObj) (k k' : PyStr) (v : JVal) :
    dictGet (dictSet d k v) k' = if k' = k then some v else dictGet d k' := by
  induction d with
  | nil =>
    show dictGet [(k, v)] k' = _
    rw [dictGet_cons]
    by_cases h : k' = k
    · simp [h]
    · have h2 : ¬ k = k' := fun he => h he.symm
      simp [dictGet, h, h2, List.find?]
  | cons p rest ih =>
    by_cases hpk : p.1 = k
    · simp only [dictSet, hpk, ite_true]
      rw [dictGet_cons, dictGet_cons]
      by_cases h : k' = k
      · simp [h]
      · have h2 : ¬ k = k' := fun he => h he.symm
        have h3 : ¬ p.1 = k' := fun he => h2 (by rw [← hpk, he])
        simp [h, h2, h3]
    · simp only [dictSet, hpk, ite_false]
      rw [dictGet_cons, dictGet_cons]
      by_cases hp' : p.1 = k'
      · have h : ¬ k' = k := fun he => hpk (by rw [hp', he])
        simp [hp', h]
      · simp [hp', ih]

theorem dictGet_eq_none_of_not_mem (d : JObj) (k : PyStr)
    (h : k ∉ d.map (fun p => p.1)) : dictGet d k = none := by
  unfold dictGet
  rw [List.find?_eq_none.mpr]
  · rfl
  · intro x hx hdec
    exact h (List.mem_map.mpr ⟨x, hx, by simpa using hdec⟩)

theorem dictGet_dictMerge (a b : JObj) (hb : WfObj b) (k : PyStr) :
    dictGet (dictMerge a b) k = orO (dictGet b k) (dictGet a k) := by
  induction b generalizing a with
  | nil =>
    simp [dictMerge, dictGet, List.find?, orO]
  | cons p rest ih =>
    have hb' : WfObj rest := (List.nodup_cons.mp hb).2
    have hnotmem : p.1 ∉ rest.map (fun q => q.1) := (List.nodup_cons.mp hb).1
    have hstep : dictMerge a (p :: rest) = dictMerge (dictSet a p.1 p.2) rest := rfl
    rw [hstep, ih _ hb', dictGet_cons]
    by_cases hk : p.1 = k
    · subst hk
      have hrest : dictGet rest p.1 = none :=
        dictGet_eq_none_of_not_mem rest p.1 hnotmem
      simp [hrest, dictGet_dictSet, orO]
    · have hk2 : ¬ k = p.1 := fun he => hk he.symm
      rw [dictGet_dictSet]
      simp [hk, hk2]

/-- Extract the merged object stored under a top-level key. -/
def mergedSection (m : JObj) (k : PyStr) : Option JObj :=
  match dictGet m k with
  | some (.obj d) => some d
  | _ => none

/-- Unfolding of a passing dependency gate: every dependency id that resolves
to a task resolves to a merged one. -/
theorem depsMerged_spec (allTasks : List Task) (t : Task) (h : depsMerged allTasks t = true) :
    ∀ dep ∈ t.dependencies, ∀ d, allTasks.find? (fun x => x.id = dep) = some d →
      d.status = .merged := by
  intro dep hdep d hfind
  have hstep := List.all_eq_true.mp h dep hdep
  rw [hfind] at hstep
  simpa using hstep

/-! ## Claim C10 -/

/-- C10: for any state in which `start` passes its own guards (not already
running, project found), `OrchestratorManager.start` hits the `MergeQueue`
construction — two positional arguments against a one-parameter `__init__` —
and raises `TypeError` before the scheduler-loop task is created; hence no
state whatsoever lets `start` create the loop. -/
theorem C10_start_raises_type_error (st : StartState)
    (h1 : st.running = false) (h2 : st.projectFound = true) :
    orchestratorStart st = .error .typeError
    ∧ ∀ (s : StartState) (b : Bool), orchestratorStart s ≠ .ok b := by
  constructor
  · simp [orchestratorStart, h1, h2, acceptsArgs, mergeQueueInitSig, mergeQueueCallArgs]
  · intro s b
    unfold orchestratorStart
    by_cases hr : s.running = true
    · simp [hr]
    · by_cases hp : s.projectFound = false
      · simp [hr, hp]
      · simp [hr, hp, acceptsArgs, mergeQueueInitSig, mergeQueueCallArgs]

/-- Witness for C10 at the concrete startable state. -/
theorem C10_start_raises_type_error_witness :
    orchestratorStart { running := false, projectFound := true } = .error .typeError :=
  (C10_start_raises_type_error { running := false, projectFound := true } rfl rfl).1

/-! ## Claim C8 -/

/-- C8 counterexample: a registered session with no recorded heartbeat (hence
not alive by the claim's `< 2 minutes` criterion) is nonetheless returned by
`list_active_agents`, so the tool does not return exactly the
fresh-heartbeat sessions. -/
theorem C8_cex_stale_agent_listed :
    let agents : List (PyStr × AgentRecord) :=
      [ ( "agent-1".data,
          { task_id := "5".data, branch := "task-5".data, description := "demo".data,
            status := "active".data, started_at := "t0".data } ) ]
    (listActiveAgents agents).map (fun e => e.session_name) = [ "agent-1".data ]
      ∧ specAliveSessions agents [] 0 = [] := by
  decide

/-- C8 (amended): `list_active_agents` returns exactly the registered sessions
of the project, with no heartbeat filtering whatsoever — a session whose
heartbeat is stale or absent is still included. -/
theorem C8_returns_all_registered (agents : List (PyStr × AgentRecord)) :
    (listActiveAgents agents).map (fun e => e.session_name) = agents.map (fun p => p.1) := by
  induction agents with
  | nil => rfl
  | cons p rest ih =>
    simp only [listActiveAgents, List.map_cons] at ih ⊢
    rw [ih]

/-! ## Claim C2 -/

/-- C2 counterexample: a queued task whose only dependency id matches no task
at all is merged by the drain (with the merge itself succeeding), although that
id is not the id of a task whose status is `merged` — the claim requires such a
task to be skipped. -/
theorem C2_cex_unknown_dependency_merges :
    let T : Task :=
      { id := "1-demo".data, task_id := some 1, title := "T".data, status := .completed,
        branch := "task-1".data, session := none, description := none, prompt := none,
        dependencies := [ "ghost".data ], priority := 1, merge_order := 1,
        exclusive_files := [], shared_files := [], initialization_deps := [] }
    (processQueue (fun _ => true) [T] [T]).1.map (fun t => t.status) = [ .merged ]
      ∧ [T].find? (fun x => x.id = "ghost".data) = none := by
  decide

/-- C2 (amended): during a drain the merge queue merges a queued task only if
its dependency gate passes, i.e. every dependency id that matches some task in
the current task list matches a task whose status is `merged`; a merely
completed dependency blocks the merge, but an id matching no task does not
block. -/
theorem C2_dependency_gate (mergeOk : Task → Bool) (allTasks queue : List Task) (t : Task)
    (h : t ∈ (processQueue mergeOk allTasks queue).1) :
    depsMerged allTasks t = true
    ∧ ∀ dep ∈ t.dependencies, ∀ d, allTasks.find? (fun x => x.id = dep) = some d →
        d.status = .merged := by
  obtain ⟨u, hu, rfl⟩ := List.mem_map.mp h
  have hu2 := (List.mem_filter.mp hu).2
  simp only [decide_eq_true_eq] at hu2
  have hdeps : depsMerged allTasks u = true := hu2.1
  have hsame : depsMerged allTasks { u with status := TaskStatus.merged }
      = depsMerged allTasks u := rfl
  refine ⟨by rw [hsame]; exact hdeps, ?_⟩
  intro dep hdep d hfind
  exact depsMerged_spec allTasks u hdeps dep hdep d hfind

/-- Witness for C2: a drain at a concrete queue whose task has one dependency
resolving to a merged task; the gate condition holds there. -/
theorem C2_dependency_gate_witness :
    depsMerged
      [ { id := "d1".data, task_id := some 1, title := "D".data, status := TaskStatus.merged,
          branch := "task-1".data, session := none, description := none, prompt := none,
          dependencies := [], priority := 1, merge_order := 1,
          exclusive_files := [], shared_files := [], initialization_deps := [] } ]
      { id := "2-demo".data, task_id := some 2, title := "T".data, status := .merged,
        branch := "task-2".data, session := none, description := none, prompt := none,
        dependencies := [ "d1".data ], priority := 1, merge_order := 2,
        exclusive_files := [], shared_files := [], initialization_deps := [] } = true :=
  (C2_dependency_gate (fun _ => true)
    [ { id := "d1".data, task_id := some 1, title := "D".data, status := TaskStatus.merged,
        branch := "task-1".data, session := none, description := none, prompt := none,
        dependencies := [], priority := 1, merge_order := 1,
        exclusive_files := [], shared_files := [], initialization_deps := [] } ]
    [ { id := "2-demo".data, task_id := some 2, title := "T".data, status := .completed,
        branch := "task-2".data, session := none, description := none, prompt := none,
        dependencies := [ "d1".data ], priority := 1, merge_order := 2,
        exclusive_files := [], shared_files := [], initialization_deps := [] } ]
    _ (by decide)).1

/-! ## Claim C4 -/

/-- C4 counterexample: at a concrete failing-resolver input the merge aborts,
trunk is unchanged, the task stays `completed` and stays queued — but the
events broadcast by the merge drain contain no `merge_failed` event (the
drain only ever emits `task_queued_for_merge`), refuting the claim's emission
requirement. -/
theorem C4_cex_no_merge_failed_event :
    let a : MergeAttempt := { cleanMerge := false, conflicts := [ "package.json".data ] }
    let rOk : PyStr → Bool := fun _ => false
    let T : Task :=
      { id := "1-demo".data, task_id := some 1, title := "T".data, status := .completed,
        branch := "task-1".data, session := none, description := none, prompt := none,
        dependencies := [], priority := 1, merge_order := 1,
        exclusive_files := [], shared_files := [], initialization_deps := [] }
    mergeTaskResult a rOk = false
    ∧ trunkAfterMerge (0 : Nat) 1 a rOk = 0
    ∧ (processQueue (fun _ => mergeTaskResult a rOk) [T] [T]).1 = []
    ∧ (processQueue (fun _ => mergeTaskResult a rOk) [T] [T]).2 = [T]
    ∧ mergeDrainEvents true [T] [] = [ "task_queued_for_merge".data ]
    ∧ "merge_failed".data ∉ mergeDrainEvents true [T] [] := by
  decide

/-- C4 (amended): when a structured resolver fails on a conflicted whitelisted
file, `merge_task` fails, `git merge --abort` leaves trunk unchanged, the
drain merges nothing and leaves the queue (and hence the task's `completed`
status) untouched; however no `merge_failed` event exists — the merge drain
never emits one, the failure is only logged. -/
theorem C4_resolver_failure_aborts {γ : Type} (trunk mergedTrunk : γ) (a : MergeAttempt)
    (resolverOk : PyStr → Bool) (f : PyStr)
    (hclean : a.cleanMerge = false) (hf : f ∈ a.conflicts) (hwl : f ∈ mergeWhitelist)
    (hfail : resolverOk f = false) :
    mergeTaskResult a resolverOk = false
    ∧ trunkAfterMerge trunk mergedTrunk a resolverOk = trunk
    ∧ (∀ allTasks queue : List Task,
        (processQueue (fun _ => mergeTaskResult a resolverOk) allTasks queue).1 = []
        ∧ (processQueue (fun _ => mergeTaskResult a resolverOk) allTasks queue).2 = queue)
    ∧ (∀ (am : Bool) (ts q : List Task), "merge_failed".data ∉ mergeDrainEvents am ts q) := by
  have h1 : mergeTaskResult a resolverOk = false := by
    unfold mergeTaskResult
    rw [hclean]
    simp only [Bool.false_eq_true, if_false]
    refine Bool.eq_false_iff.mpr (fun hall => ?_)
    have h2 := List.all_eq_true.mp hall f hf
    rw [if_pos hwl] at h2
    rw [hfail] at h2
    exact Bool.false_ne_true h2
  refine ⟨h1, ?_, ?_, ?_⟩
  · unfold trunkAfterMerge
    rw [h1]
    simp
  · intro allTasks queue
    constructor
    · simp [processQueue, h1]
    · simp [processQueue, h1]
  · intro am ts q hmem
    unfold mergeDrainEvents at hmem
    by_cases ham : am = true
    · rw [if_pos ham] at hmem
      obtain ⟨x, _, hx⟩ := List.mem_map.mp hmem
      exact (by decide : ¬ "task_queued_for_merge".data = "merge_failed".data) hx
    · rw [if_neg ham] at hmem
      exact (List.not_mem_nil _) hmem

/-- Witness for C4 at the concrete failing input of the counterexample. -/
theorem C4_resolver_failure_aborts_witness :
    mergeTaskResult
      { cleanMerge := false, conflicts := [ "package.json".data ] } (fun _ => false) = false :=
  (C4_resolver_failure_aborts (0 : Nat) 1
    { cleanMerge := false, conflicts := [ "package.json".data ] } (fun _ => false)
    ( "package.json".data ) rfl (by decide) (by decide) rfl).1

/-! ## Claim C7 -/

/-- C7 counterexample: an `in_progress` task whose session is gone and whose
branch has no commits is nevertheless marked `completed` (not rewound to
`up_next`) when its status file reads `COMPLETED`, because the sentinel check
runs before the failure check. -/
theorem C7_cex_completed_file_overrides :
    let t : Task :=
      { id := "1-demo".data, task_id := some 1, title := "T".data,
        status := .inProgress, branch := "task-1".data, session := some ( "1-demo".data ),
        description := none, prompt := none, dependencies := [], priority := 1,
        merge_order := 1, exclusive_files := [], shared_files := [],
        initialization_deps := [] }
    let env : AgentEnv :=
      { redisNotice := false, statusFile := some ( "COMPLETED".data ),
        sessionExists := false, capturedDone := false, hasCommits := false }
    checkAgentStatusTask env t = { t with status := .completed }
      ∧ checkAgentStatusTask env t ≠ { t with status := .upNext, session := none } := by
  decide

/-- C7 (amended): an `in_progress` task whose session no longer exists and
whose branch has no commits ahead of main is rewound to `up_next` with its
session cleared — provided no completion signal fires first, i.e. unless the
status file reads `COMPLETED` while no Redis completion notice consumed it. -/
theorem C7_dead_session_rewinds (env : AgentEnv) (t : Task) (s : PyStr)
    (hstat : t.status = .inProgress) (hsess : t.session = some s)
    (hdead : env.sessionExists = false) (hnc : env.hasCommits = false)
    (hfile : env.redisNotice = false → ∀ c, env.statusFile = some c →
      ¬ (Py.strip c = "COMPLETED".data)) :
    checkAgentStatusTask env t = { t with status := .upNext, session := none } := by
  cases hrn : env.redisNotice with
  | false =>
    cases hsf : env.statusFile with
    | none => simp [checkAgentStatusTask, hstat, hsess, hdead, hnc, hrn, hsf]
    | some c =>
      have hc : ¬ (Py.strip c = "COMPLETED".data) := hfile hrn c hsf
      simp [checkAgentStatusTask, hstat, hsess, hdead, hnc, hrn, hsf, hc]
  | true =>
    simp [checkAgentStatusTask, hstat, hsess, hdead, hnc, hrn]

/-- Witness for C7 at a concrete dead-session state with a RUNNING status
file. -/
theorem C7_dead_session_rewinds_witness :
    checkAgentStatusTask
      { redisNotice := false, statusFile := some ( "RUNNING".data ),
        sessionExists := false, capturedDone := false, hasCommits := false }
      { id := "1-demo".data, task_id := some 1, title := "T".data,
        status := .inProgress, branch := "task-1".data, session := some ( "1-demo".data ),
        description := none, prompt := none, dependencies := [], priority := 1,
        merge_order := 1, exclusive_files := [], shared_files := [],
        initialization_deps := [] }
    = { id := "1-demo".data, task_id := some 1, title := "T".data,
        status := .upNext, branch := "task-1".data, session := none,
        description := none, prompt := none, dependencies := [], priority := 1,
        merge_order := 1, exclusive_files := [], shared_files := [],
        initialization_deps := [] } :=
  C7_dead_session_rewinds
    { redisNotice := false, statusFile := some ( "RUNNING".data ),
      sessionExists := false, capturedDone := false, hasCommits := false }
    { id := "1-demo".data, task_id := some 1, title := "T".data,
      status := .inProgress, branch := "task-1".data, session := some ( "1-demo".data ),
      description := none, prompt := none, dependencies := [], priority := 1,
      merge_order := 1, exclusive_files := [], shared_files := [],
      initialization_deps := [] }
    ( "1-demo".data ) rfl rfl rfl rfl (by intro _ c hc; cases hc; decide)

/-! ## Claim C9 -/

/-- C9: the package.json resolver merges each dependency section as the
key-wise union of base, ours and theirs with theirs winning (then ours, then
base), and merges scripts as ours ∪ theirs with theirs winning on duplicate
keys. -/
theorem C9_package_json_resolver (base ours theirs m bd od td bv ov tv os tscr : JObj)
    (k : PyStr)
    (hres : resolvePackageJson base ours theirs = some m)
    (h1 : getSectionD base depsKey = some bd) (h2 : getSectionD ours depsKey = some od)
    (h3 : getSectionD theirs depsKey = some td)
    (h4 : getSectionD base devDepsKey = some bv) (h5 : getSectionD ours devDepsKey = some ov)
    (h6 : getSectionD theirs devDepsKey = some tv)
    (h7 : getSectionD ours scriptsKey = some os) (h8 : getSectionD theirs scriptsKey = some tscr)
    (w2 : WfObj od) (w3 : WfObj td) (w5 : WfObj ov) (w6 : WfObj tv) (w8 : WfObj tscr) :
    ((mergedSection m depsKey).bind (fun d => dictGet d k)
        = orO (dictGet td k) (orO (dictGet od k) (dictGet bd k)))
    ∧ ((mergedSection m devDepsKey).bind (fun d => dictGet d k)
        = orO (dictGet tv k) (orO (dictGet ov k) (dictGet bv k)))
    ∧ ((mergedSection m scriptsKey).bind (fun d => dictGet d k)
        = orO (dictGet tscr k) (dictGet os k)) := by
  have hm : m = dictSet (dictSet (dictSet ours depsKey
        (.obj (dictMerge (dictMerge bd od) td)))
      devDepsKey (.obj (dictMerge (dictMerge bv ov) tv)))
      scriptsKey (.obj (dictMerge os tscr)) := by
    unfold resolvePackageJson at hres
    rw [h1, h2, h3, h4, h5, h6, h7, h8] at hres
    exact (Option.some_inj.mp hres).symm
  subst hm
  refine ⟨?_, ?_, ?_⟩
  · have e1 : dictGet (dictSet (dictSet (dictSet ours depsKey
        (.obj (dictMerge (dictMerge bd od) td)))
        devDepsKey (.obj (dictMerge (dictMerge bv ov) tv)))
        scriptsKey (.obj (dictMerge os tscr))) depsKey
        = some (.obj (dictMerge (dictMerge bd od) td)) := by
      rw [dictGet_dictSet]
      rw [if_neg (by decide : ¬ depsKey = scriptsKey)]
      rw [dictGet_dictSet]
      rw [if_neg (by decide : ¬ depsKey = devDepsKey)]
      rw [dictGet_dictSet]
      rw [if_pos rfl]
    unfold mergedSection
    rw [e1]
    show dictGet (dictMerge (dictMerge bd od) td) k = _
    rw [dictGet_dictMerge _ _ w3, dictGet_dictMerge _ _ w2]
  · have e2 : dictGet (dictSet (dictSet (dictSet ours depsKey
        (.obj (dictMerge (dictMerge bd od) td)))
        devDepsKey (.obj (dictMerge (dictMerge bv ov) tv)))
        scriptsKey (.obj (dictMerge os tscr))) devDepsKey
        = some (.obj (dictMerge (dictMerge bv ov) tv)) := by
      rw [dictGet_dictSet]
      rw [if_neg (by decide : ¬ devDepsKey = scriptsKey)]
      rw [dictGet_dictSet]
      rw [if_pos rfl]
    unfold mergedSection
    rw [e2]
    show dictGet (dictMerge (dictMerge bv ov) tv) k = _
    rw [dictGet_dictMerge _ _ w6, dictGet_dictMerge _ _ w5]
  · have e3 : dictGet (dictSet (dictSet (dictSet ours depsKey
        (.obj (dictMerge (dictMerge bd od) td)))
        devDepsKey (.obj (dictMerge (dictMerge bv ov) tv)))
        scriptsKey (.obj (dictMerge os tscr))) scriptsKey
        = some (.obj (dictMerge os tscr)) := by
      rw [dictGet_dictSet]
      rw [if_pos rfl]
    unfold mergedSection
    rw [e3]
    show dictGet (dictMerge os tscr) k = _
    rw [dictGet_dictMerge _ _ w8]

/-- Witness for C9: both sides add the same dependency key with different
versions; the merged section carries theirs. -/
theorem C9_package_json_resolver_witness :
    (mergedSection
      [ (depsKey, JVal.obj [ ( "left-pad".data, JVal.str ( "2".data ) ) ]),
        (devDepsKey, JVal.obj []), (scriptsKey, JVal.obj []) ] depsKey).bind
        (fun d => dictGet d ( "left-pad".data ))
      = orO (dictGet [ ( "left-pad".data, JVal.str ( "2".data ) ) ] ( "left-pad".data ))
          (orO (dictGet [ ( "left-pad".data, JVal.str ( "1".data ) ) ] ( "left-pad".data ))
            (dictGet [] ( "left-pad".data ))) :=
  (C9_package_json_resolver
    [] [ (depsKey, JVal.obj [ ( "left-pad".data, JVal.str ( "1".data ) ) ]) ]
    [ (depsKey, JVal.obj [ ( "left-pad".data, JVal.str ( "2".data ) ) ]) ]
    [ (depsKey, JVal.obj [ ( "left-pad".data, JVal.str ( "2".data ) ) ]),
      (devDepsKey, JVal.obj []), (scriptsKey, JVal.obj []) ]
    [] [ ( "left-pad".data, JVal.str ( "1".data ) ) ]
    [ ( "left-pad".data, JVal.str ( "2".data ) ) ]
    [] [] [] [] []
    ( "left-pad".data )
    rfl rfl rfl rfl rfl rfl rfl rfl rfl
    (by decide) (by decide) (by decide) (by decide) (by decide)).1

/-! ## Counting lemmas for the scheduler -/

theorem countInProgress_cons (t : Task) (ts : List Task) :
    countInProgress (t :: ts) =
      (if t.status = .inProgress then 1 else 0) + countInProgress ts := by
  unfold countInProgress
  rw [List.filter_cons]
  by_cases h : t.status = .inProgress
  · simp [h, Nat.add_comm]
  · simp [h]

theorem countInProgress_updateFirst_le (ts : List Task) (tid : PyStr) (f : Task → Task)
    (hf : ∀ x, (f x).status ≠ .inProgress) :
    countInProgress (updateFirst ts tid f) ≤ countInProgress ts := by
  induction ts with
  | nil => simp [updateFirst]
  | cons t rest ih =>
    unfold updateFirst
    by_cases h : t.id = tid
    · rw [if_pos h, countInProgress_cons, countInProgress_cons]
      rw [if_neg (hf t)]
      split <;> omega
    · rw [if_neg h, countInProgress_cons, countInProgress_cons]
      split <;> omega

theorem countInProgress_updateFirst_succ (ts : List Task) (tid : PyStr) (f : Task → Task) :
    countInProgress (updateFirst ts tid f) ≤ countInProgress ts + 1 := by
  induction ts with
  | nil => simp [updateFirst]
  | cons t rest ih =>
    unfold updateFirst
    by_cases h : t.id = tid
    · rw [if_pos h, countInProgress_cons, countInProgress_cons]
      have h1 : (if (f t).status = .inProgress then 1 else 0) ≤ 1 := by split <;> omega
      have h2 : (0:Nat) ≤ if t.status = .inProgress then 1 else 0 := Nat.zero_le _
      omega
    · rw [if_neg h, countInProgress_cons, countInProgress_cons]
      omega

theorem countInProgress_statusFold_le (l : List Task) (st : TaskStatus)
    (hst : st ≠ .inProgress) (ts : List Task) :
    countInProgress (l.foldl
      (fun acc t => updateFirst acc t.id (fun x => { x with status := st })) ts)
      ≤ countInProgress ts := by
  induction l generalizing ts with
  | nil => simp
  | cons t rest ih =>
    simp only [List.foldl_cons]
    calc countInProgress _
        ≤ countInProgress (updateFirst ts t.id (fun x => { x with status := st })) := ih _
      _ ≤ countInProgress ts := countInProgress_updateFirst_le _ _ _ (fun _ => hst)

theorem countInProgress_spawnFold_le (l : List Task) (projId : PyStr) (ok : Task → Bool)
    (ts : List Task) :
    countInProgress (l.foldl (fun acc t => if ok t then updateFirst acc t.id
      (fun x => { x with status := .inProgress, session := some (sessionName projId t) })
      else acc) ts) ≤ countInProgress ts + l.length := by
  induction l generalizing ts with
  | nil => simp
  | cons t rest ih =>
    simp only [List.foldl_cons, List.length_cons]
    by_cases h : ok t = true
    · rw [if_pos h]
      have h1 := ih (updateFirst ts t.id
        (fun x => { x with status := .inProgress, session := some (sessionName projId t) }))
      have h2 := countInProgress_updateFirst_succ ts t.id
        (fun x => { x with status := .inProgress, session := some (sessionName projId t) })
      omega
    · rw [if_neg h]
      have := ih ts
      omega

theorem countInProgress_manageQueue_le (mc ma : Int) (ts : List Task) :
    countInProgress (manageQueue mc ma ts) ≤ countInProgress ts := by
  unfold manageQueue
  by_cases h1 : (countUpNext ts : Int) < min mc ma
  · rw [if_pos h1]
    exact countInProgress_statusFold_le _ _ (by simp) _
  · rw [if_neg h1]
    by_cases h2 : min mc ma < (countUpNext ts : Int)
    · rw [if_pos h2]
      exact countInProgress_statusFold_le _ _ (by simp) _
    · rw [if_neg h2]

theorem countInProgress_spawnAgents_le (projId : PyStr) (ok : Task → Bool) (mc ma : Int)
    (ts : List Task) :
    (countInProgress (spawnAgents projId ok mc ma ts) : Int) ≤
      max (countInProgress ts : Int) (min mc ma) := by
  unfold spawnAgents
  by_cases h : min mc ma - (countInProgress ts : Int) ≤ 0
  · have hsel : spawnSelected mc ma ts = [] := by
      unfold spawnSelected
      rw [if_pos h]
    rw [hsel]
    simp only [List.foldl_nil]
    omega
  · have hlen : (spawnSelected mc ma ts).length
        ≤ (min mc ma - (countInProgress ts : Int)).toNat := by
      unfold spawnSelected
      rw [if_neg h]
      calc (List.take _ _).length ≤ _ := List.length_take_le _ _
        _ ≤ (min mc ma - (countInProgress ts : Int)).toNat := Nat.min_le_right _ _
    have hfold := countInProgress_spawnFold_le (spawnSelected mc ma ts) projId ok ts
    omega

theorem checkAgentStatusTask_status_back (env : AgentEnv) (t : Task) :
    (checkAgentStatusTask env t).status = .inProgress → t.status = .inProgress := by
  intro h
  unfold checkAgentStatusTask at h
  by_cases hrn : env.redisNotice = true <;>
    simp only [hrn, if_pos, if_neg, ite_true, ite_false, Bool.not_true, Bool.not_false] at h <;>
    split_ifs at h <;>
    simp_all

theorem countInProgress_map_le (g : Task → Task)
    (h : ∀ t, (g t).status = .inProgress → t.status = .inProgress) (ts : List Task) :
    countInProgress (ts.map g) ≤ countInProgress ts := by
  induction ts with
  | nil => simp
  | cons t rest ih =>
    rw [List.map_cons, countInProgress_cons, countInProgress_cons]
    by_cases hg : (g t).status = .inProgress
    · rw [if_pos hg, if_pos (h t hg)]
      omega
    · rw [if_neg hg]
      split <;> omega

theorem countInProgress_checkAgentStatus_le (envOf : Task → AgentEnv) (ts : List Task) :
    countInProgress (checkAgentStatus envOf ts) ≤ countInProgress ts :=
  countInProgress_map_le _ (fun t => checkAgentStatusTask_status_back (envOf t) t) ts

/-! ## Claim C3 -/

/-- C3: if the `in_progress` count respects the cap
`min(max_concurrent_agents, project.max_agents)` at the start of a tick, it
still respects it after the tick; agent spawning raises the count at most to
the cap (it transitions at most `cap − current` tasks), and neither queue
management nor the status check ever increases the count. -/
theorem C3_concurrency_cap (projId : PyStr) (spawnOk : Task → Bool) (envOf : Task → AgentEnv)
    (maxConc maxAgents : Int) (ts : List Task)
    (h : (countInProgress ts : Int) ≤ min maxConc maxAgents) :
    ((countInProgress (schedulerTick projId spawnOk envOf maxConc maxAgents ts) : Int)
        ≤ min maxConc maxAgents)
    ∧ ((countInProgress (spawnAgents projId spawnOk maxConc maxAgents ts) : Int)
        ≤ max (countInProgress ts : Int) (min maxConc maxAgents))
    ∧ countInProgress (manageQueue maxConc maxAgents ts) ≤ countInProgress ts
    ∧ (∀ ts', countInProgress (checkAgentStatus envOf ts') ≤ countInProgress ts') := by
  refine ⟨?_, countInProgress_spawnAgents_le projId spawnOk maxConc maxAgents ts,
    countInProgress_manageQueue_le maxConc maxAgents ts,
    fun ts' => countInProgress_checkAgentStatus_le envOf ts'⟩
  unfold schedulerTick
  have h1 := countInProgress_manageQueue_le maxConc maxAgents ts
  have h2 := countInProgress_spawnAgents_le projId spawnOk maxConc maxAgents
    (manageQueue maxConc maxAgents ts)
  have h3 := countInProgress_checkAgentStatus_le envOf
    (spawnAgents projId spawnOk maxConc maxAgents (manageQueue maxConc maxAgents ts))
  omega

/-- Witness for C3 at a concrete empty task list with cap 1. -/
theorem C3_concurrency_cap_witness :
    (countInProgress (schedulerTick ( "demo".data ) (fun _ => true)
      (fun _ => { redisNotice := false, statusFile := none, sessionExists := true,
                  capturedDone := false, hasCommits := false }) 1 1 []) : Int) ≤ min 1 1 :=
  (C3_concurrency_cap ( "demo".data ) (fun _ => true)
    (fun _ => { redisNotice := false, statusFile := none, sessionExists := true,
                capturedDone := false, hasCommits := false }) 1 1 [] (by decide)).1

/-! ## Claim C1 -/

/-- C1 counterexample: with `base-html` and `header-component` both `up_next`
and two free slots, `_spawn_agents` spawns both in the same tick — the
conflict check only looks at tasks that were already `in_progress` when the
step began — leaving two `in_progress` tasks whose `exclusive_files` and
`shared_files` intersect (both own `index.html`), and
`can_tasks_run_concurrently` deems them conflicting. -/
theorem C1_cex_same_tick_conflict :
    let tA : Task :=
      { id := "base-html".data, task_id := some 1, title := "Base HTML".data,
        status := .upNext, branch := "task-1".data, session := none, description := none,
        prompt := none, dependencies := [], priority := 10, merge_order := 1,
        exclusive_files := [ "index.html".data ], shared_files := [],
        initialization_deps := [] }
    let tB : Task :=
      { id := "header-component".data, task_id := some 2, title := "Header Component".data,
        status := .upNext, branch := "task-2".data, session := none, description := none,
        prompt := none, dependencies := [], priority := 8, merge_order := 5,
        exclusive_files := [ "components/header.css".data ],
        shared_files := [ "index.html".data ], initialization_deps := [] }
    ((spawnAgents ( "demo".data ) (fun _ => true) 2 2 [tA, tB]).map (fun t => t.status)
        = [ .inProgress, .inProgress ])
    ∧ setInterNonempty tA.exclusive_files tB.shared_files = true
    ∧ canTasksRunConcurrently tA.id tB.id = false := by
  decide

/-- C1 (amended): every task the spawn step selects is non-conflicting (per
`can_tasks_run_concurrently`, which consults the static `TASK_DEFINITIONS`
table and treats unknown ids as non-conflicting) with every task that was
already `in_progress` at the start of the step; tasks spawned within the same
tick are not checked against each other. -/
theorem C1_no_conflict_with_preexisting (maxConc maxAgents : Int) (ts : List Task)
    (t r : Task) (ht : t ∈ spawnSelected maxConc maxAgents ts) (hr : r ∈ ts)
    (hrs : r.status = .inProgress) :
    canTasksRunConcurrently t.id r.id = true := by
  unfold spawnSelected at ht
  by_cases h : min maxConc maxAgents - (countInProgress ts : Int) ≤ 0
  · rw [if_pos h] at ht
    exact absurd ht (List.not_mem_nil t)
  · rw [if_neg h] at ht
    have ht2 : t ∈ List.insertionSort spawnLe (spawnCandidates ts) :=
      List.mem_of_mem_take ht
    have ht3 : t ∈ spawnCandidates ts := (List.mem_insertionSort spawnLe).mp ht2
    have ht4 := (List.mem_filter.mp ht3).2
    simp only [decide_eq_true_eq] at ht4
    have hnc : conflictsWithRunning (runningTasks ts) t = false := ht4.2
    have hrr : r ∈ runningTasks ts := List.mem_filter.mpr ⟨hr, by simp [hrs]⟩
    unfold conflictsWithRunning at hnc
    have hone := List.any_eq_false.mp hnc r hrr
    simpa using hone

/-- Witness for C1: `base-css` is spawned while `base-html` is running; the
two are non-conflicting. -/
theorem C1_no_conflict_with_preexisting_witness :
    canTasksRunConcurrently ( "base-css".data ) ( "base-html".data ) = true :=
  C1_no_conflict_with_preexisting 2 2
    [ { id := "base-html".data, task_id := some 1, title := "Base HTML".data,
        status := .inProgress, branch := "task-1".data, session := some ( "1-demo".data ),
        description := none, prompt := none, dependencies := [], priority := 10,
        merge_order := 1, exclusive_files := [ "index.html".data ], shared_files := [],
        initialization_deps := [] },
      { id := "base-css".data, task_id := some 2, title := "Base CSS".data,
        status := .upNext, branch := "task-2".data, session := none,
        description := none, prompt := none, dependencies := [], priority := 10,
        merge_order := 2, exclusive_files := [ "styles.css".data ], shared_files := [],
        initialization_deps := [] } ]
    { id := "base-css".data, task_id := some 2, title := "Base CSS".data,
      status := .upNext, branch := "task-2".data, session := none,
      description := none, prompt := none, dependencies := [], priority := 10,
      merge_order := 2, exclusive_files := [ "styles.css".data ], shared_files := [],
      initialization_deps := [] }
    { id := "base-html".data, task_id := some 1, title := "Base HTML".data,
      status := .inProgress, branch := "task-1".data, session := some ( "1-demo".data ),
      description := none, prompt := none, dependencies := [], priority := 10,
      merge_order := 1, exclusive_files := [ "index.html".data ], shared_files := [],
      initialization_deps := [] }
    (by decide) (by decide) rfl

/-! ## Claim C5 -/

set_option maxHeartbeats 1600000 in
/-- `applyField` leaves the priority alone on any non-priority line. -/
theorem applyField_priority (t : RawTask) (m : Int) (line : PyStr)
    (h : Py.startsWith kPriority line = false) :
    ((applyField t m line).1).priority = t.priority := by
  unfold applyField
  by_cases h1 : Py.startsWith kTaskId line = true
  · rw [if_pos h1]
    cases Py.toInt (lineVal kTaskId line) <;> rfl
  rw [if_neg h1]
  by_cases h2 : Py.startsWith kStatus line = true
  · rw [if_pos h2]
  rw [if_neg h2]
  by_cases h3 : Py.startsWith kBranch line = true
  · rw [if_pos h3]
    by_cases hb : lineVal kBranch line = nullLit
    · rw [if_pos hb]
    · rw [if_neg hb]
  rw [if_neg h3]
  by_cases h4 : Py.startsWith kSession line = true
  · rw [if_pos h4]
    by_cases hb : lineVal kSession line = nullLit
    · rw [if_pos hb]
    · rw [if_neg hb]
  rw [if_neg h4]
  by_cases h5 : Py.startsWith kDescription line = true
  · rw [if_pos h5]
  rw [if_neg h5]
  by_cases h6 : Py.startsWith kPrompt line = true
  · rw [if_pos h6]
  rw [if_neg h6]
  by_cases h7 : Py.startsWith kDependencies line = true
  · rw [if_pos h7]
    by_cases hb : lineVal kDependencies line ≠ [] ∧ lineVal kDependencies line ≠ emptyListLit
    · rw [if_pos hb]
    · rw [if_neg hb]
  rw [if_neg h7]
  have h8 : ¬ Py.startsWith kPriority line = true := by simp [h]
  rw [if_neg h8]
  by_cases h9 : Py.startsWith kMergeOrder line = true
  · rw [if_pos h9]
    cases Py.toInt (lineVal kMergeOrder line) <;> rfl
  rw [if_neg h9]
  by_cases h10 : Py.startsWith kExclusive line = true
  · rw [if_pos h10]
    by_cases hb : lineVal kExclusive line ≠ [] ∧ lineVal kExclusive line ≠ emptyListLit
    · rw [if_pos hb]
    · rw [if_neg hb]
  rw [if_neg h10]
  by_cases h11 : Py.startsWith kShared line = true
  · rw [if_pos h11]
    by_cases hb : lineVal kShared line ≠ [] ∧ lineVal kShared line ≠ emptyListLit
    · rw [if_pos hb]
    · rw [if_neg hb]
  rw [if_neg h11]
  by_cases h12 : Py.startsWith kInit line = true
  · rw [if_pos h12]
    by_cases hb : lineVal kInit line ≠ [] ∧ lineVal kInit line ≠ emptyListLit
    · rw [if_pos hb]
    · rw [if_neg hb]
  rw [if_neg h12]

/-- The invariant that every block built so far has priority 0. -/
def PriorityZeroInv (st : PState) : Prop :=
  (∀ r ∈ st.acc, r.priority = 0) ∧ (∀ r, st.cur = some r → r.priority = 0)

set_option maxHeartbeats 1600000 in
theorem lineStep_priorityZero (st : PState) (rawLine : PyStr)
    (hline : Py.startsWith kPriority (Py.strip rawLine) = false)
    (hst : PriorityZeroInv st) : PriorityZeroInv (lineStep st rawLine) := by
  obtain ⟨hacc, hcur⟩ := hst
  simp only [lineStep]
  by_cases hh : Py.startsWith kHeader (Py.strip rawLine) = true
  · rw [if_pos hh]
    constructor
    · intro r hr
      unfold flushCur at hr
      rcases List.mem_append.mp hr with h1 | h2
      · exact hacc r h1
      · cases hc : st.cur with
        | none => rw [hc] at h2; simp at h2
        | some u =>
          rw [hc] at h2
          simp at h2
          rw [h2]
          exact hcur u hc
    · intro r hr
      cases hr
      rfl
  · rw [if_neg hh]
    cases hc : st.cur with
    | none => exact ⟨hacc, by rw [hc] at hcur ⊢; exact hcur⟩
    | some u =>
      dsimp only
      by_cases hd : Py.startsWith kDash (Py.strip rawLine) = true
      · rw [if_pos hd]
        refine ⟨hacc, ?_⟩
        intro r hr
        cases hr
        rw [applyField_priority u st.maxId (Py.strip rawLine) hline]
        exact hcur u hc
      · rw [if_neg hd]
        exact ⟨hacc, hcur⟩

theorem foldl_priorityZero (lines : List PyStr)
    (hlines : ∀ l ∈ lines, Py.startsWith kPriority (Py.strip l) = false)
    (st : PState) (hst : PriorityZeroInv st) :
    PriorityZeroInv (lines.foldl lineStep st) := by
  induction lines generalizing st with
  | nil => exact hst
  | cons l rest ih =>
    exact ih (fun x hx => hlines x (List.mem_cons_of_mem _ hx)) _
      (lineStep_priorityZero st l (hlines l (List.mem_cons_self _ _)) hst)

theorem assignIds_priority (m : Int) (l : List RawTask) (h : ∀ r ∈ l, r.priority = 0) :
    ∀ r ∈ assignIds m l, r.priority = 0 := by
  induction l generalizing m with
  | nil =>
    intro r hr
    simp [assignIds] at hr
  | cons t rest ih =>
    intro r hr
    unfold assignIds at hr
    cases htid : t.task_id with
    | some n =>
      rw [htid] at hr
      rcases List.mem_cons.mp hr with h1 | h2
      · rw [h1]
        exact h t (List.mem_cons_self _ _)
      · exact ih m (fun x hx => h x (List.mem_cons_of_mem _ hx)) r h2
    | none =>
      rw [htid] at hr
      rcases List.mem_cons.mp hr with h1 | h2
      · rw [h1]
        exact h t (List.mem_cons_self _ _)
      · exact ih (m + 1) (fun x hx => h x (List.mem_cons_of_mem _ hx)) r h2

theorem finalize_priority (l : List RawTask) (h : ∀ r ∈ l, r.priority = 0) :
    ∀ u ∈ finalize l, u.priority = 0 := by
  intro u hu
  obtain ⟨r, hr, hru⟩ := List.mem_filterMap.mp hu
  cases hb : r.branch with
  | none => rw [hb] at hru; exact absurd hru (by simp)
  | some b =>
    rw [hb] at hru
    simp only [Option.some_inj] at hru
    rw [← hru]
    exact h r hr

/-- C5 counterexample: a task block with no `- priority:` line parses to
priority 0 (not 10) and sorts *before* a task with explicit priority 1. -/
theorem C5_cex_absent_priority_not_ten :
    let lines : List PyStr :=
      [ "# tasks.md".data, [],
        "## Task: Alpha".data, "- task_id: 1".data, "- status: unclaimed".data,
        "- branch: task-1".data, [],
        "## Task: Beta".data, "- task_id: 2".data, "- status: unclaimed".data,
        "- branch: task-2".data, "- priority: 1".data, [] ]
    (getTasks lines).map (fun t => (t.title, t.priority))
      = [ ( "Alpha".data, (0 : Int) ), ( "Beta".data, (1 : Int) ) ] := by
  decide

/-- C5 (amended): a task whose stored block contains no priority field is
treated as priority 0: parsing assigns 0 when the `- priority:` line is
absent, and — since the store sorts ascending by `(priority, task_id)` — such
a task sorts *before* every task with an explicit priority 1..9 (any task
ordered before a priority-0 task itself has priority ≤ 0). -/
theorem C5_absent_priority_zero :
    (∀ lines : List PyStr, (∀ l ∈ lines, Py.startsWith kPriority (Py.strip l) = false) →
      ∀ t ∈ getTasks lines, t.priority = 0)
    ∧ (∀ (ts pre mid post : List Task) (u v : Task),
        sortTasks ts = pre ++ u :: mid ++ v :: post → v.priority = 0 → u.priority ≤ 0) := by
  constructor
  · intro lines hlines t ht
    have hfold := foldl_priorityZero lines hlines ⟨[], none, 0⟩
      ⟨by intro r hr; simp at hr, by intro r hr; simp at hr⟩
    have hflush : ∀ r ∈ flushCur (lines.foldl lineStep ⟨[], none, 0⟩), r.priority = 0 := by
      intro r hr
      unfold flushCur at hr
      rcases List.mem_append.mp hr with h1 | h2
      · exact hfold.1 r h1
      · cases hc : (lines.foldl lineStep ⟨[], none, 0⟩).cur with
        | none => rw [hc] at h2; simp at h2
        | some u =>
          rw [hc] at h2
          simp at h2
          rw [h2]
          exact hfold.2 u hc
    unfold getTasks at ht
    have ht2 := (List.mem_insertionSort taskLe).mp ht
    exact finalize_priority _ (assignIds_priority _ _ hflush) t ht2
  · intro ts pre mid post u v heq hv
    have hs : List.Sorted taskLe (sortTasks ts) := List.sorted_insertionSort taskLe ts
    rw [heq, List.append_assoc, List.cons_append] at hs
    have hsub : List.Sublist [u, v] (pre ++ (u :: (mid ++ v :: post))) := by
      refine List.Sublist.trans ?_ (List.sublist_append_right pre _)
      refine List.Sublist.cons₂ u ?_
      refine List.Sublist.trans ?_ (List.sublist_append_right mid _)
      exact List.Sublist.cons₂ v (List.nil_sublist post)
    have hpair := hs.sublist hsub
    have hle : taskLe u v := (List.pairwise_cons.mp hpair).1 v (List.mem_singleton_self v)
    unfold taskLe at hle
    omega

/-- Witness for C5: a concrete priority-free file parses to priority 0, and in
a concrete sorted store a task ordered before a priority-0 task has
priority ≤ 0. -/
theorem C5_absent_priority_zero_witness :
    (∀ t ∈ getTasks [ "## Task: Alpha".data, "- task_id: 1".data, "- branch: task-1".data ],
      t.priority = 0)
    ∧ ({ id := "alpha".data, task_id := some 1, title := "Alpha".data, status := .unclaimed,
         branch := "task-1".data, session := none, description := none, prompt := none,
         dependencies := [], priority := 0, merge_order := 0, exclusive_files := [],
         shared_files := [], initialization_deps := [] } : Task).priority ≤ 0 := by
  constructor
  · exact C5_absent_priority_zero.1
      [ "## Task: Alpha".data, "- task_id: 1".data, "- branch: task-1".data ]
      (by decide)
  · exact C5_absent_priority_zero.2
      [ { id := "alpha".data, task_id := some 1, title := "Alpha".data, status := .unclaimed,
          branch := "task-1".data, session := none, description := none, prompt := none,
          dependencies := [], priority := 0, merge_order := 0, exclusive_files := [],
          shared_files := [], initialization_deps := [] },
        { id := "beta".data, task_id := some 2, title := "Beta".data, status := .unclaimed,
          branch := "task-2".data, session := none, description := none, prompt := none,
          dependencies := [], priority := 0, merge_order := 0, exclusive_files := [],
          shared_files := [], initialization_deps := [] } ]
      [] [] []
      { id := "alpha".data, task_id := some 1, title := "Alpha".data, status := .unclaimed,
        branch := "task-1".data, session := none, description := none, prompt := none,
        dependencies := [], priority := 0, merge_order := 0, exclusive_files := [],
        shared_files := [], initialization_deps := [] }
      { id := "beta".data, task_id := some 2, title := "Beta".data, status := .unclaimed,
        branch := "task-2".data, session := none, description := none, prompt := none,
        dependencies := [], priority := 0, merge_order := 0, exclusive_files := [],
        shared_files := [], initialization_deps := [] }
      (by decide) rfl

/-! ## String lemmas for the serialization round-trip (claim C6) -/

theorem startsWith_rfl (p : PyStr) : Py.startsWith p p = true := by
  induction p with
  | nil => rfl
  | cons a p' ih => simp [Py.startsWith, ih]

theorem startsWith_append_of (p : PyStr) :
    ∀ (q r : PyStr), Py.startsWith p q = true → Py.startsWith p (q ++ r) = true := by
  induction p with
  | nil =>
    intro q r _
    rfl
  | cons a p' ih =>
    intro q r h
    cases q with
    | nil => simp [Py.startsWith] at h
    | cons b q' =>
      simp only [Py.startsWith, Bool.and_eq_true, List.cons_append] at h ⊢
      exact ⟨h.1, ih q' r h.2⟩

theorem startsWith_append_ne (p : PyStr) :
    ∀ (q r : PyStr), Py.startsWith p q = false → Py.startsWith q p = false →
      Py.startsWith p (q ++ r) = false := by
  induction p with
  | nil =>
    intro q r h1 _
    simp [Py.startsWith] at h1
  | cons a p' ih =>
    intro q r h1 h2
    cases q with
    | nil => simp [Py.startsWith] at h2
    | cons b q' =>
      simp only [Py.startsWith, List.cons_append] at h1 h2 ⊢
      by_cases hab : (a == b) = true
      · have hba : (b == a) = true := by
          have : a = b := by simpa using hab
          simp [this]
        rw [hab, Bool.true_and] at h1 ⊢
        rw [hba, Bool.true_and] at h2
        exact ih q' r h1 h2
      · rw [Bool.eq_false_iff.mpr hab, Bool.false_and]

theorem startsWith_mem (p : PyStr) :
    ∀ (s : PyStr), Py.startsWith p s = true → ∀ c ∈ p, c ∈ s := by
  induction p with
  | nil =>
    intro s _ c hc
    simp at hc
  | cons a p' ih =>
    intro s h c hc
    cases s with
    | nil => simp [Py.startsWith] at h
    | cons b s' =>
      simp only [Py.startsWith, Bool.and_eq_true] at h
      have hab : a = b := by simpa using h.1
      rcases List.mem_cons.mp hc with h1 | h2
      · rw [h1, hab]
        exact List.mem_cons_self _ _
      · exact List.mem_cons_of_mem _ (ih s' h.2 c h2)

theorem hasSub_mem (p : PyStr) :
    ∀ (s : PyStr), Py.hasSub p s = true → ∀ c ∈ p, c ∈ s := by
  intro s
  induction s with
  | nil =>
    intro h c hc
    unfold Py.hasSub at h
    have : p = [] := by simpa [List.isEmpty_iff] using h
    rw [this] at hc
    simp at hc
  | cons b s' ih =>
    intro h c hc
    unfold Py.hasSub at h
    rcases Bool.or_eq_true_iff.mp h with h1 | h2
    · exact startsWith_mem p (b :: s') h1 c hc
    · exact List.mem_cons_of_mem _ (ih h2 c hc)

theorem hasSub_eq_false_of_missing (p s : PyStr) (c : Char) (hc : c ∈ p) (hs : c ∉ s) :
    Py.hasSub p s = false := by
  refine Bool.eq_false_iff.mpr (fun h => ?_)
  exact hs (hasSub_mem p s h c hc)

theorem replaceAux_of_not_hasSub (old new : PyStr) :
    ∀ (fuel : Nat) (s : PyStr), Py.hasSub old s = false →
      Py.replaceAux old new fuel s = s := by
  intro fuel
  induction fuel with
  | zero =>
    intro s _
    rfl
  | succ f ih =>
    intro s h
    cases s with
    | nil => rfl
    | cons c rest =>
      have hsplit : Py.startsWith old (c :: rest) = false ∧ Py.hasSub old rest = false := by
        unfold Py.hasSub at h
        exact Bool.or_eq_false_iff.mp h
      unfold Py.replaceAux
      rw [if_neg (fun hcond => Bool.false_ne_true (hsplit.1 ▸ hcond.2))]
      rw [ih rest hsplit.2]

theorem replace_of_not_hasSub (old new s : PyStr) (h : Py.hasSub old s = false) :
    Py.replace old new s = s :=
  replaceAux_of_not_hasSub old new s.length s h

theorem replace_key_prefix (old w : PyStr) (hne : old ≠ []) (hw : Py.hasSub old w = false) :
    Py.replace old [] (old ++ w) = w := by
  cases old with
  | nil => exact absurd rfl hne
  | cons a o' =>
    show Py.replaceAux (a :: o') [] ((o' ++ w).length + 1) (a :: (o' ++ w)) = w
    unfold Py.replaceAux
    rw [if_pos ⟨by simp, startsWith_append_of (a :: o') (a :: o') w (startsWith_rfl (a :: o'))⟩]
    rw [List.nil_append]
    show Py.replaceAux (a :: o') [] (o' ++ w).length ((o' ++ w).drop o'.length) = w
    rw [List.drop_left]
    exact replaceAux_of_not_hasSub _ _ _ w hw

theorem splitChar_cons (sep c : Char) (rest : PyStr) :
    Py.splitChar sep (c :: rest) =
      match Py.splitChar sep rest with
      | [] => []
      | h :: t => if c == sep then [] :: h :: t else (c :: h) :: t := rfl

theorem splitChar_ne_nil (sep : Char) (s : PyStr) : Py.splitChar sep s ≠ [] := by
  induction s with
  | nil => simp [Py.splitChar]
  | cons c rest ih =>
    unfold Py.splitChar
    cases hrec : Py.splitChar sep rest with
    | nil => exact absurd hrec ih
    | cons h t =>
      dsimp only
      split <;> simp

theorem splitChar_append_sep (sep : Char) (u w : PyStr) :
    Py.splitChar sep (u ++ sep :: w) = Py.splitChar sep u ++ Py.splitChar sep w := by
  induction u with
  | nil =>
    cases hrec : Py.splitChar sep w with
    | nil => exact absurd hrec (splitChar_ne_nil sep w)
    | cons h t =>
      show Py.splitChar sep (sep :: w) = Py.splitChar sep [] ++ (h :: t)
      unfold Py.splitChar
      rw [hrec]
      simp
  | cons c u' ih =>
    cases hrec : Py.splitChar sep u' with
    | nil => exact absurd hrec (splitChar_ne_nil sep u')
    | cons h t =>
      show Py.splitChar sep (c :: (u' ++ sep :: w)) =
        Py.splitChar sep (c :: u') ++ Py.splitChar sep w
      rw [splitChar_cons, splitChar_cons, ih, hrec]
      dsimp only
      by_cases hc : (c == sep) = true
      · simp [hc]
      · rw [Bool.eq_false_iff.mpr hc]
        simp

theorem splitChar_no_sep (sep : Char) (s : PyStr) (h : sep ∉ s) :
    Py.splitChar sep s = [s] := by
  induction s with
  | nil => rfl
  | cons c rest ih =>
    have hrest : sep ∉ rest := fun hm => h (List.mem_cons_of_mem _ hm)
    have hc : (c == sep) = false := by
      simp only [beq_eq_false_iff_ne]
      exact fun he => h (he ▸ List.mem_cons_self _ _)
    unfold Py.splitChar
    rw [ih hrest, hc]
    simp

theorem splitChar_pyJoin (sep : Char) (items : List PyStr) (hne : items ≠ []) :
    Py.splitChar sep (Py.pyJoin [sep] items) = items.flatMap (Py.splitChar sep) := by
  induction items with
  | nil => exact absurd rfl hne
  | cons x rest ih =>
    cases rest with
    | nil => simp [Py.pyJoin]
    | cons y t =>
      have hshape : Py.pyJoin [sep] (x :: y :: t) = x ++ sep :: Py.pyJoin [sep] (y :: t) := by
        show x ++ [sep] ++ Py.pyJoin [sep] (y :: t) = _
        rw [List.append_assoc]
        rfl
      rw [hshape, splitChar_append_sep, ih (by simp)]
      simp

theorem dropWhile_cons_false (p : Char → Bool) (c : Char) (rest : PyStr) (h : p c = false) :
    List.dropWhile p (c :: rest) = c :: rest := by
  simp [List.dropWhile, h]

theorem length_dropWhile_le' (p : Char → Bool) (l : PyStr) :
    (List.dropWhile p l).length ≤ l.length := by
  induction l with
  | nil => simp
  | cons c rest ih =>
    by_cases h : p c = true
    · simp only [List.dropWhile, h]
      calc (List.dropWhile p rest).length ≤ rest.length := ih
        _ ≤ (c :: rest).length := by simp
  -- either branch keeps or shortens
    · rw [dropWhile_cons_false p c rest (Bool.eq_false_iff.mpr h)]

theorem dropWhile_eq_self_of_length (p : Char → Bool) (l : PyStr)
    (h : (List.dropWhile p l).length = l.length) : List.dropWhile p l = l := by
  cases l with
  | nil => rfl
  | cons c rest =>
    by_cases hc : p c = true
    · exfalso
      have h1 : List.dropWhile p (c :: rest) = List.dropWhile p rest := by
        simp [List.dropWhile, hc]
      rw [h1] at h
      have := length_dropWhile_le' p rest
      simp at h
      omega
    · exact dropWhile_cons_false p c rest (Bool.eq_false_iff.mpr hc)

theorem strip_parts (s : PyStr) (h : Py.strip s = s) :
    List.dropWhile Py.isSpaceChar s = s
    ∧ List.dropWhile Py.isSpaceChar s.reverse = s.reverse := by
  have hdef : Py.strip s =
      (((List.dropWhile Py.isSpaceChar s).reverse.dropWhile Py.isSpaceChar).reverse) := rfl
  have hlen1 : (((List.dropWhile Py.isSpaceChar s).reverse.dropWhile
      Py.isSpaceChar).reverse).length ≤ (List.dropWhile Py.isSpaceChar s).length := by
    rw [List.length_reverse]
    calc ((List.dropWhile Py.isSpaceChar s).reverse.dropWhile Py.isSpaceChar).length
        ≤ (List.dropWhile Py.isSpaceChar s).reverse.length := length_dropWhile_le' _ _
      _ = (List.dropWhile Py.isSpaceChar s).length := List.length_reverse _
  have hlen2 : (List.dropWhile Py.isSpaceChar s).length ≤ s.length := length_dropWhile_le' _ _
  rw [hdef] at h
  have hslen := congrArg List.length h
  have hdw : List.dropWhile Py.isSpaceChar s = s := by
    apply dropWhile_eq_self_of_length
    omega
  rw [hdw] at h
  refine ⟨hdw, ?_⟩
  have := congrArg List.reverse h
  rwa [List.reverse_reverse] at this

theorem strip_head_false (s : PyStr) (h : Py.strip s = s) :
    ∀ c, s.head? = some c → Py.isSpaceChar c = false := by
  intro c hc
  have hdw := (strip_parts s h).1
  cases s with
  | nil => simp at hc
  | cons a rest =>
    have ha : a = c := by simpa using hc
    subst ha
    by_cases hp : Py.isSpaceChar a = true
    · exfalso
      have h1 : List.dropWhile Py.isSpaceChar (a :: rest) = List.dropWhile Py.isSpaceChar rest := by
        simp [List.dropWhile, hp]
      rw [h1] at hdw
      have hlen := congrArg List.length hdw
      have := length_dropWhile_le' Py.isSpaceChar rest
      simp at hlen
      omega
    · exact Bool.eq_false_iff.mpr hp

theorem strip_rev_head_false (s : PyStr) (h : Py.strip s = s) :
    ∀ c, s.reverse.head? = some c → Py.isSpaceChar c = false := by
  intro c hc
  have hdw := (strip_parts s h).2
  cases hrev : s.reverse with
  | nil => rw [hrev] at hc; simp at hc
  | cons a rest =>
    rw [hrev] at hc hdw
    have ha : a = c := by simpa using hc
    subst ha
    by_cases hp : Py.isSpaceChar a = true
    · exfalso
      have h1 : List.dropWhile Py.isSpaceChar (a :: rest) = List.dropWhile Py.isSpaceChar rest := by
        simp [List.dropWhile, hp]
      rw [h1] at hdw
      have hlen := congrArg List.length hdw
      have := length_dropWhile_le' Py.isSpaceChar rest
      simp at hlen
      omega
    · exact Bool.eq_false_iff.mpr hp

theorem strip_eq_self_of (s : PyStr)
    (h1 : ∀ c, s.head? = some c → Py.isSpaceChar c = false)
    (h2 : ∀ c, s.reverse.head? = some c → Py.isSpaceChar c = false) : Py.strip s = s := by
  have hdw : List.dropWhile Py.isSpaceChar s = s := by
    cases s with
    | nil => rfl
    | cons c rest => exact dropWhile_cons_false _ _ _ (h1 c rfl)
  show Py.dropRightWhile Py.isSpaceChar (List.dropWhile Py.isSpaceChar s) = s
  rw [hdw]
  unfold Py.dropRightWhile
  cases hrev : s.reverse with
  | nil =>
    have : s = [] := by simpa using congrArg List.reverse hrev
    rw [this]
    rfl
  | cons d w =>
    rw [dropWhile_cons_false _ _ _ (h2 d (by rw [hrev]; rfl)), ← hrev,
      List.reverse_reverse]

theorem strip_space_cons (v : PyStr) : Py.strip (' ' :: v) = Py.strip v := rfl

theorem head?_append_left {α : Type} (x y : List α) (hx : x ≠ []) :
    (x ++ y).head? = x.head? := by
  cases x with
  | nil => exact absurd rfl hx
  | cons a rest => rfl

/-! ### Character classes of printed integers -/

def digits10 : List Char := ['0', '1', '2', '3', '4', '5', '6', '7', '8', '9']

theorem digitChar_mem_digits10 (k : Nat) (h : k < 10) : Nat.digitChar k ∈ digits10 := by
  interval_cases k <;> decide

theorem mem_natReprAux (fuel : Nat) :
    ∀ (n : Nat), ∀ c ∈ Py.natReprAux fuel n, c ∈ digits10 := by
  induction fuel with
  | zero =>
    intro n c hc
    simp [Py.natReprAux] at hc
  | succ f ih =>
    intro n c hc
    unfold Py.natReprAux at hc
    by_cases h : n < 10
    · rw [if_pos h] at hc
      have : c = Nat.digitChar n := by simpa using hc
      rw [this]
      exact digitChar_mem_digits10 n h
    · rw [if_neg h] at hc
      rcases List.mem_append.mp hc with h1 | h2
      · exact ih (n / 10) c h1
      · have : c = Nat.digitChar (n % 10) := by simpa using h2
        rw [this]
        exact digitChar_mem_digits10 _ (Nat.mod_lt _ (by omega))

theorem mem_intRepr (i : Int) : ∀ c ∈ Py.intRepr i, c ∈ '-' :: digits10 := by
  intro c hc
  unfold Py.intRepr at hc
  by_cases h : i < 0
  · rw [if_pos h] at hc
    rcases List.mem_cons.mp hc with h1 | h2
    · rw [h1]
      exact List.mem_cons_self _ _
    · exact List.mem_cons_of_mem _ (mem_natReprAux _ _ c h2)
  · rw [if_neg h] at hc
    exact List.mem_cons_of_mem _ (mem_natReprAux _ _ c hc)

theorem strip_intRepr (i : Int) : Py.strip (Py.intRepr i) = Py.intRepr i := by
  apply strip_eq_self_of
  · intro c hc
    have hmem : c ∈ Py.intRepr i := by
      cases hr : Py.intRepr i with
      | nil => rw [hr] at hc; simp at hc
      | cons a rest =>
        rw [hr] at hc
        have : a = c := by simpa using hc
        rw [← this]
        exact List.mem_cons_self _ _
    exact (by decide : ∀ x ∈ '-' :: digits10, Py.isSpaceChar x = false) c
      (mem_intRepr i c hmem)
  · intro c hc
    have hmem : c ∈ Py.intRepr i := by
      cases hr : (Py.intRepr i).reverse with
      | nil => rw [hr] at hc; simp at hc
      | cons a rest =>
        rw [hr] at hc
        have ha : a = c := by simpa using hc
        have : c ∈ (Py.intRepr i).reverse := by
          rw [hr, ← ha]
          exact List.mem_cons_self _ _
        exact List.mem_reverse.mp this
    exact (by decide : ∀ x ∈ '-' :: digits10, Py.isSpaceChar x = false) c
      (mem_intRepr i c hmem)

theorem noNL_intRepr (i : Int) : '\n' ∉ Py.intRepr i := by
  intro h
  exact absurd (mem_intRepr i '\n' h) (by decide)

theorem digitsToNatAux_append (acc : Nat) (u w : PyStr) :
    Py.digitsToNatAux acc (u ++ w)
      = (Py.digitsToNatAux acc u).bind (fun a => Py.digitsToNatAux a w) := by
  induction u generalizing acc with
  | nil => rfl
  | cons c rest ih =>
    have e1 : Py.digitsToNatAux acc (c :: (rest ++ w))
        = if c.isDigit = true then Py.digitsToNatAux (acc * 10 + Py.digitVal c) (rest ++ w)
          else none := rfl
    have e2 : Py.digitsToNatAux acc (c :: rest)
        = if c.isDigit = true then Py.digitsToNatAux (acc * 10 + Py.digitVal c) rest
          else none := rfl
    show Py.digitsToNatAux acc (c :: (rest ++ w)) = (Py.digitsToNatAux acc (c :: rest)).bind _
    rw [e1, e2]
    by_cases h : c.isDigit = true
    · rw [if_pos h, if_pos h]
      exact ih _
    · rw [if_neg h, if_neg h]
      rfl

theorem digitChar_isDigit (k : Nat) (h : k < 10) : (Nat.digitChar k).isDigit = true := by
  interval_cases k <;> decide

theorem digitVal_digitChar (k : Nat) (h : k < 10) : Py.digitVal (Nat.digitChar k) = k := by
  interval_cases k <;> decide

theorem digitsToNatAux_natReprAux (fuel : Nat) :
    ∀ (n acc : Nat), n < fuel →
      Py.digitsToNatAux acc (Py.natReprAux fuel n)
        = some (acc * 10 ^ (Py.natReprAux fuel n).length + n) := by
  induction fuel with
  | zero =>
    intro n acc h
    omega
  | succ f ih =>
    intro n acc h
    unfold Py.natReprAux
    by_cases h10 : n < 10
    · rw [if_pos h10]
      unfold Py.digitsToNatAux
      rw [if_pos (digitChar_isDigit n h10), digitVal_digitChar n h10]
      show Py.digitsToNatAux (acc * 10 + n) [] = _
      unfold Py.digitsToNatAux
      norm_num
    · rw [if_neg h10]
      rw [digitsToNatAux_append]
      rw [ih (n / 10) acc (by omega)]
      show Py.digitsToNatAux _ [Nat.digitChar (n % 10)] = _
      unfold Py.digitsToNatAux
      rw [if_pos (digitChar_isDigit _ (Nat.mod_lt _ (by omega))),
        digitVal_digitChar _ (Nat.mod_lt _ (by omega))]
      unfold Py.digitsToNatAux
      congr 1
      rw [List.length_append, List.length_singleton, pow_succ]
      have hdm := Nat.div_add_mod n 10
      set L := (Py.natReprAux f (n / 10)).length
      ring_nf
      omega

theorem natRepr_ne_nil (n : Nat) : Py.natRepr n ≠ [] := by
  unfold Py.natRepr Py.natReprAux
  split <;> simp

theorem digitsToNat_natRepr (n : Nat) : Py.digitsToNat (Py.natRepr n) = some n := by
  have hmain := digitsToNatAux_natReprAux (n + 1) n 0 (by omega)
  rw [Nat.zero_mul, Nat.zero_add] at hmain
  cases hr : Py.natRepr n with
  | nil => exact absurd hr (natRepr_ne_nil n)
  | cons c rest =>
    show Py.digitsToNatAux 0 (c :: rest) = some n
    rw [← hr]
    exact hmain

theorem natRepr_head_mem (n : Nat) (c : Char) (h : (Py.natRepr n).head? = some c) :
    c ∈ digits10 := by
  cases hr : Py.natRepr n with
  | nil =>
    rw [hr] at h
    simp at h
  | cons a rest =>
    rw [hr] at h
    have ha : a = c := by simpa using h
    have hmem : a ∈ Py.natRepr n := by
      rw [hr]
      exact List.mem_cons_self _ _
    exact ha ▸ mem_natReprAux (n + 1) n a hmem

theorem toInt_cons (c : Char) (rest : PyStr) :
    Py.toInt (c :: rest)
      = if c = '-' then (Py.digitsToNat rest).map (fun n => -(n : Int))
        else if c = '+' then (Py.digitsToNat rest).map (fun n => (n : Int))
        else (Py.digitsToNat (c :: rest)).map (fun n => (n : Int)) := rfl

theorem toInt_intRepr (i : Int) : Py.toInt (Py.intRepr i) = some i := by
  unfold Py.intRepr
  by_cases h : i < 0
  · rw [if_pos h, toInt_cons, if_pos rfl, digitsToNat_natRepr]
    show some (-(i.natAbs : Int)) = some i
    have : -(i.natAbs : Int) = i := by omega
    rw [this]
  · rw [if_neg h]
    cases hr : Py.natRepr i.toNat with
    | nil => exact absurd hr (natRepr_ne_nil _)
    | cons c rest =>
      have hcd : c ∈ digits10 := natRepr_head_mem i.toNat c (by rw [hr]; rfl)
      have hc1 : ¬ c = '-' := fun he => by
        rw [he] at hcd
        exact absurd hcd (by decide)
      have hc2 : ¬ c = '+' := fun he => by
        rw [he] at hcd
        exact absurd hcd (by decide)
      rw [toInt_cons, if_neg hc1, if_neg hc2, ← hr, digitsToNat_natRepr]
      have : (i.toNat : Int) = i := by omega
      simp [this]

/-! ### Well-formedness of persisted tasks: the syntactic conditions under
which re-parsing the serialized form reproduces the task exactly.  Parse
output of real task files satisfies them except in the degenerate cases shown
by the C6 counterexample (negative priorities, empty-string fields, field
values containing their own key, bracket-delimiter tricks). -/

/-- A stored string field: already stripped and single-line. -/
def WfStr (v : PyStr) : Prop := Py.strip v = v ∧ '\n' ∉ v

instance (v : PyStr) : Decidable (WfStr v) := by
  unfold WfStr
  infer_instance

/-- An optional string field (`description`, `prompt`): absent, or nonempty,
well formed, and free of its own serialization key. -/
def WfOptStr (key : PyStr) : Option PyStr → Prop
  | none => True
  | some v => v ≠ [] ∧ WfStr v ∧ Py.hasSub key v = false

instance (key : PyStr) : (o : Option PyStr) → Decidable (WfOptStr key o)
  | none => isTrue trivial
  | some v => by
    unfold WfOptStr
    infer_instance

/-- The session field: absent, or a nonempty non-`null` well-formed string. -/
def WfSession : Option PyStr → Prop
  | none => True
  | some s => s ≠ [] ∧ s ≠ nullLit ∧ WfStr s ∧ Py.hasSub kSession s = false

instance : (o : Option PyStr) → Decidable (WfSession o)
  | none => isTrue trivial
  | some s => by
    unfold WfSession
    infer_instance

/-- A boundary character of a bracket list must not be a bracket (else
`strip("[]")` eats into the data). -/
def WfBoundary : Option Char → Prop
  | none => True
  | some c => c ≠ '[' ∧ c ≠ ']'

instance : (o : Option Char) → Decidable (WfBoundary o)
  | none => isTrue trivial
  | some c => by
    unfold WfBoundary
    infer_instance

def commaSpace : PyStr := [',', ' ']

/-- A bracket-list field (`dependencies`, `exclusive_files`, …): elements are
nonempty stripped comma-free single-line strings, the joined body does not
start or end with a bracket character, and the serialized value is free of the
field's key. -/
def WfList (key : PyStr) (xs : List PyStr) : Prop :=
  (∀ e ∈ xs, e ≠ [] ∧ WfStr e ∧ ',' ∉ e)
  ∧ WfBoundary (Py.pyJoin commaSpace xs).head?
  ∧ WfBoundary (Py.pyJoin commaSpace xs).reverse.head?
  ∧ Py.hasSub key (brackets xs) = false

instance (key : PyStr) (xs : List PyStr) : Decidable (WfList key xs) := by
  unfold WfList
  infer_instance

/-- All conditions for a task's serialized block to parse back to the task. -/
def WfTask (t : Task) : Prop :=
  t.title ≠ [] ∧ WfStr t.title ∧ Py.hasSub kHeader t.title = false
  ∧ t.id = sanitizeTaskId (Py.replace [' '] ['-'] (Py.lower t.title))
  ∧ t.task_id ≠ none
  ∧ t.branch ≠ [] ∧ t.branch ≠ nullLit ∧ WfStr t.branch
  ∧ sanitizeTaskId t.branch = t.branch ∧ Py.hasSub kBranch t.branch = false
  ∧ WfSession t.session
  ∧ WfOptStr kDescription t.description
  ∧ WfOptStr kPrompt t.prompt
  ∧ WfList kDependencies t.dependencies
  ∧ 0 ≤ t.priority
  ∧ 0 ≤ t.merge_order
  ∧ WfList kExclusive t.exclusive_files
  ∧ WfList kShared t.shared_files
  ∧ WfList kInit t.initialization_deps

instance (t : Task) : Decidable (WfTask t) := by
  unfold WfTask
  infer_instance

theorem ne_true_of_eq_false {b : Bool} (h : b = false) : ¬ (b = true) := by
  simp [h]

theorem hasSub_space_cons (c : Char) (krest v : PyStr) (hc : (c == ' ') = false)
    (h : Py.hasSub (c :: krest) v = false) : Py.hasSub (c :: krest) (' ' :: v) = false := by
  have e : Py.hasSub (c :: krest) (' ' :: v)
      = (Py.startsWith (c :: krest) (' ' :: v) || Py.hasSub (c :: krest) v) := rfl
  have e2 : Py.startsWith (c :: krest) (' ' :: v)
      = ((c == ' ') && Py.startsWith krest v) := rfl
  rw [e, e2, hc, h]
  rfl

/-- The value read back from a serialized `key: value` line is the value. -/
theorem lineVal_field (key v : PyStr) (hkey : key ≠ [])
    (hsp : Py.hasSub key (' ' :: v) = false) (hstrip : Py.strip v = v) :
    lineVal key ((key ++ sp1) ++ v) = v := by
  unfold lineVal
  have hshape : (key ++ sp1) ++ v = key ++ (' ' :: v) := by
    rw [List.append_assoc]
    rfl
  rw [hshape, replace_key_prefix key (' ' :: v) hkey hsp]
  rw [strip_space_cons, hstrip]

/-- A serialized field line is already stripped. -/
theorem strip_field_line (c : Char) (krest v : PyStr)
    (hc : Py.isSpaceChar c = false)
    (hv : v ≠ []) (hstrip : Py.strip v = v) :
    Py.strip (((c :: krest) ++ sp1) ++ v) = ((c :: krest) ++ sp1) ++ v := by
  apply strip_eq_self_of
  · intro d hd
    have he : ((((c :: krest) ++ sp1) ++ v)).head? = some c := rfl
    rw [he] at hd
    have : c = d := by simpa using hd
    rw [← this]
    exact hc
  · intro d hd
    rw [List.reverse_append] at hd
    have hvrev : v.reverse ≠ [] := by simpa using hv
    rw [head?_append_left _ _ hvrev] at hd
    exact strip_rev_head_false v hstrip d hd

theorem noNL_field_line (key v : PyStr) (hkey : '\n' ∉ key) (hv : '\n' ∉ v) :
    '\n' ∉ (key ++ sp1) ++ v := by
  intro h
  rcases List.mem_append.mp h with h1 | h2
  · rcases List.mem_append.mp h1 with h3 | h4
    · exact hkey h3
    · simp [sp1] at h4
  · exact hv h2

theorem mem_pyJoin (sep : PyStr) (xs : List PyStr) (c : Char) :
    c ∈ Py.pyJoin sep xs → c ∈ sep ∨ ∃ e ∈ xs, c ∈ e := by
  induction xs with
  | nil =>
    intro h
    simp [Py.pyJoin] at h
  | cons x rest ih =>
    cases rest with
    | nil =>
      intro h
      exact Or.inr ⟨x, List.mem_cons_self _ _, h⟩
    | cons y t =>
      intro h
      show _ ∨ ∃ e ∈ x :: y :: t, c ∈ e
      rcases List.mem_append.mp h with h1 | h2
      · rcases List.mem_append.mp h1 with h3 | h4
        · exact Or.inr ⟨x, List.mem_cons_self _ _, h3⟩
        · exact Or.inl h4
      · rcases ih h2 with h5 | ⟨e, he, hc⟩
        · exact Or.inl h5
        · exact Or.inr ⟨e, List.mem_cons_of_mem _ he, hc⟩

theorem noNL_brackets (xs : List PyStr) (h : ∀ e ∈ xs, '\n' ∉ e) :
    '\n' ∉ brackets xs := by
  intro hmem
  unfold brackets at hmem
  rcases List.mem_cons.mp hmem with h1 | h2
  · simp at h1
  · rcases List.mem_append.mp h2 with h3 | h4
    · rcases mem_pyJoin commaSpace xs '\n' h3 with h5 | ⟨e, he, hc⟩
      · simp [commaSpace] at h5
      · exact h e he hc
    · simp at h4

theorem flatMap_splitChar_id (L : List PyStr) (h : ∀ l ∈ L, '\n' ∉ l) :
    L.flatMap (Py.splitChar '\n') = L := by
  induction L with
  | nil => rfl
  | cons l rest ih =>
    simp only [List.flatMap_cons]
    rw [splitChar_no_sep _ _ (h l (List.mem_cons_self _ _)),
      ih (fun x hx => h x (List.mem_cons_of_mem _ hx))]
    rfl

theorem intRepr_ne_nil (i : Int) : Py.intRepr i ≠ [] := by
  unfold Py.intRepr
  split
  · simp
  · exact natRepr_ne_nil _

theorem hasSub_intRepr (key : PyStr) (hc : ':' ∈ key) (i : Int) :
    Py.hasSub key (Py.intRepr i) = false :=
  hasSub_eq_false_of_missing key _ ':' hc (fun h => absurd (mem_intRepr i ':' h) (by decide))

theorem statusOfStr_value (s : TaskStatus) : statusOfStr (TaskStatus.value s) = some s := by
  cases s <;> rfl

theorem pyJoin_ne_nil (e : PyStr) (rest : List PyStr) (he : e ≠ []) :
    Py.pyJoin commaSpace (e :: rest) ≠ [] := by
  cases rest with
  | nil => exact he
  | cons y t =>
    show (e ++ commaSpace) ++ Py.pyJoin commaSpace (y :: t) ≠ []
    simp [commaSpace]

theorem brackets_ne_nil (xs : List PyStr) : brackets xs ≠ [] := by
  unfold brackets
  simp

theorem brackets_ne_emptyList (xs : List PyStr) (hJ : Py.pyJoin commaSpace xs ≠ []) :
    brackets xs ≠ emptyListLit := by
  intro h
  have hl := congrArg List.length h
  simp [brackets, emptyListLit, commaSpace] at hl
  unfold commaSpace at hJ
  exact hJ hl

theorem strip_brackets (xs : List PyStr) : Py.strip (brackets xs) = brackets xs := by
  apply strip_eq_self_of
  · intro c hc
    have he : (brackets xs).head? = some '[' := rfl
    rw [he] at hc
    have : '[' = c := by simpa using hc
    rw [← this]
    decide
  · intro c hc
    have he : (brackets xs).reverse.head? = some ']' := by
      unfold brackets
      rw [show ('[' :: (Py.pyJoin (',' :: ' ' :: []) xs ++ ([']'] : PyStr)))
            = ('[' :: Py.pyJoin (',' :: ' ' :: []) xs) ++ ([']'] : PyStr) from rfl,
        List.reverse_append]
      rfl
    rw [he] at hc
    have : ']' = c := by simpa using hc
    rw [← this]
    decide

theorem noNL_brackets_of (xs : List PyStr) (h : ∀ e ∈ xs, '\n' ∉ e) :
    '\n' ∉ brackets xs := noNL_brackets xs h

theorem stripChars_brackets (xs : List PyStr)
    (hb1 : WfBoundary (Py.pyJoin commaSpace xs).head?)
    (hb2 : WfBoundary (Py.pyJoin commaSpace xs).reverse.head?)
    (hJne : Py.pyJoin commaSpace xs ≠ []) :
    Py.stripChars ('[' :: ']' :: []) (brackets xs) = Py.pyJoin commaSpace xs := by
  obtain ⟨c, J', hJ⟩ : ∃ c J', Py.pyJoin commaSpace xs = c :: J' := by
    cases hJe : Py.pyJoin commaSpace xs with
    | nil => exact absurd hJe hJne
    | cons a b => exact ⟨a, b, rfl⟩
  have hc : c ≠ '[' ∧ c ≠ ']' := by
    have : WfBoundary (some c) := by rw [← show (Py.pyJoin commaSpace xs).head? = some c from by rw [hJ]; rfl]; exact hb1
    exact this
  have hpc : (('[' :: ']' :: []).contains c) = false := by
    rw [Bool.eq_false_iff]
    intro hcon
    have hmem : c ∈ ('[' :: ']' :: ([] : List Char)) := by
      simpa using hcon
    rcases List.mem_cons.mp hmem with h1 | h2
    · exact hc.1 h1
    · rcases List.mem_cons.mp h2 with h3 | h4
      · exact hc.2 h3
      · simp at h4
  obtain ⟨d, R, hR⟩ : ∃ d R, (Py.pyJoin commaSpace xs).reverse = d :: R := by
    cases hRe : (Py.pyJoin commaSpace xs).reverse with
    | nil => exact absurd (by simpa using hRe) hJne
    | cons a b => exact ⟨a, b, rfl⟩
  have hd : d ≠ '[' ∧ d ≠ ']' := by
    have : WfBoundary (some d) := by rw [← show (Py.pyJoin commaSpace xs).reverse.head? = some d from by rw [hR]; rfl]; exact hb2
    exact this
  have hpd : (('[' :: ']' :: []).contains d) = false := by
    rw [Bool.eq_false_iff]
    intro hcon
    have hmem : d ∈ ('[' :: ']' :: ([] : List Char)) := by
      simpa using hcon
    rcases List.mem_cons.mp hmem with h1 | h2
    · exact hd.1 h1
    · rcases List.mem_cons.mp h2 with h3 | h4
      · exact hd.2 h3
      · simp at h4
  unfold Py.stripChars Py.dropRightWhile
  rw [show brackets xs = '[' :: (Py.pyJoin commaSpace xs ++ ([']'] : PyStr)) from rfl]
  have e1 : List.dropWhile (fun ch => ('[' :: ']' :: []).contains ch)
      ('[' :: (Py.pyJoin commaSpace xs ++ ([']'] : PyStr)))
      = List.dropWhile (fun ch => ('[' :: ']' :: []).contains ch)
          (Py.pyJoin commaSpace xs ++ ([']'] : PyStr)) := rfl
  rw [e1, hJ, List.cons_append,
    dropWhile_cons_false _ c _ hpc, ← List.cons_append, ← hJ, List.reverse_append]
  have e2 : (([']'] : PyStr)).reverse = ([']'] : PyStr) := rfl
  rw [e2, List.singleton_append,
    show List.dropWhile (fun ch => ('[' :: ']' :: []).contains ch)
        (']' :: (Py.pyJoin commaSpace xs).reverse)
      = List.dropWhile (fun ch => ('[' :: ']' :: []).contains ch)
          (Py.pyJoin commaSpace xs).reverse from rfl,
    hR, dropWhile_cons_false _ d _ hpd, ← hR, List.reverse_reverse]

theorem splitChar_comma_join (e : PyStr) (rest : List PyStr)
    (he : ',' ∉ e) (hrest : ∀ x ∈ rest, ',' ∉ x) :
    Py.splitChar ',' (Py.pyJoin commaSpace (e :: rest))
      = e :: rest.map (fun r => ' ' :: r) := by
  induction rest generalizing e with
  | nil =>
    show Py.splitChar ',' e = [e]
    exact splitChar_no_sep ',' e he
  | cons y t ih =>
    have hshape : Py.pyJoin commaSpace (e :: y :: t)
        = e ++ ',' :: (' ' :: Py.pyJoin commaSpace (y :: t)) := by
      show (e ++ commaSpace) ++ Py.pyJoin commaSpace (y :: t) = _
      rw [List.append_assoc]
      rfl
    rw [hshape, splitChar_append_sep, splitChar_no_sep ',' e he]
    have hy : ',' ∉ y := hrest y (List.mem_cons_self _ _)
    have ht : ∀ x ∈ t, ',' ∉ x := fun x hx => hrest x (List.mem_cons_of_mem _ hx)
    have hih := ih y hy ht
    rw [splitChar_cons, hih]
    rfl

theorem parseBracketList_brackets (xs : List PyStr) (hxs : xs ≠ [])
    (hel : ∀ e ∈ xs, e ≠ [] ∧ WfStr e ∧ ',' ∉ e)
    (hb1 : WfBoundary (Py.pyJoin commaSpace xs).head?)
    (hb2 : WfBoundary (Py.pyJoin commaSpace xs).reverse.head?) :
    parseBracketList (brackets xs) = xs := by
  obtain ⟨e, rest, hx⟩ : ∃ e rest, xs = e :: rest := by
    cases hxe : xs with
    | nil => exact absurd hxe hxs
    | cons a b => exact ⟨a, b, rfl⟩
  subst hx
  have hJne : Py.pyJoin commaSpace (e :: rest) ≠ [] :=
    pyJoin_ne_nil e rest (hel e (List.mem_cons_self _ _)).1
  unfold parseBracketList
  rw [stripChars_brackets _ hb1 hb2 hJne,
    splitChar_comma_join e rest (hel e (List.mem_cons_self _ _)).2.2
      (fun x hx => (hel x (List.mem_cons_of_mem _ hx)).2.2)]
  have hmap : List.map Py.strip (e :: rest.map (fun r => ' ' :: r)) = e :: rest := by
    simp only [List.map_cons, List.map_map]
    rw [(hel e (List.mem_cons_self _ _)).2.1.1]
    congr 1
    rw [show (Py.strip ∘ fun r => ' ' :: r) = (fun r => Py.strip (' ' :: r)) from rfl]
    have : ∀ r ∈ rest, Py.strip (' ' :: r) = r := by
      intro r hr
      rw [strip_space_cons, (hel r (List.mem_cons_of_mem _ hr)).2.1.1]
    calc List.map (fun r => Py.strip (' ' :: r)) rest
        = List.map (fun r => r) rest := List.map_congr_left this
      _ = rest := List.map_id' rest
  rw [hmap]
  rw [List.filter_eq_self.mpr]
  intro a ha
  have := (hel a ha).1
  simpa using this

theorem sw_field_false (p q v : PyStr) (h1 : Py.startsWith p q = false)
    (h2 : Py.startsWith q p = false) : ¬ (Py.startsWith p (q ++ v) = true) :=
  ne_true_of_eq_false (startsWith_append_ne p q v h1 h2)

/-! Per-key evaluation of `applyField` on a serialized `key: value` line. -/

theorem applyField_taskId (t : RawTask) (m : Int) (v : PyStr)
    (hsub : Py.hasSub kTaskId (' ' :: v) = false) (hstrip : Py.strip v = v)
    (n : Int) (htoInt : Py.toInt v = some n) :
    applyField t m ((kTaskId ++ sp1) ++ v) = ({ t with task_id := some n }, max m n) := by
  unfold applyField
  rw [if_pos (startsWith_append_of kTaskId (kTaskId ++ sp1) v (by decide))]
  rw [lineVal_field kTaskId v (by decide) hsub hstrip, htoInt]

theorem applyField_status (t : RawTask) (m : Int) (v : PyStr)
    (hsub : Py.hasSub kStatus (' ' :: v) = false) (hstrip : Py.strip v = v) :
    applyField t m ((kStatus ++ sp1) ++ v)
      = ({ t with status := (statusOfStr v).getD .unclaimed }, m) := by
  unfold applyField
  rw [if_neg (sw_field_false kTaskId (kStatus ++ sp1) v (by decide) (by decide))]
  rw [if_pos (startsWith_append_of kStatus (kStatus ++ sp1) v (by decide))]
  rw [lineVal_field kStatus v (by decide) hsub hstrip]

theorem applyField_branch (t : RawTask) (m : Int) (v : PyStr)
    (hsub : Py.hasSub kBranch (' ' :: v) = false) (hstrip : Py.strip v = v)
    (hnull : ¬ (v = nullLit)) (hsan : sanitizeTaskId v = v) :
    applyField t m ((kBranch ++ sp1) ++ v) = ({ t with branch := some v }, m) := by
  unfold applyField
  rw [if_neg (sw_field_false kTaskId (kBranch ++ sp1) v (by decide) (by decide))]
  rw [if_neg (sw_field_false kStatus (kBranch ++ sp1) v (by decide) (by decide))]
  rw [if_pos (startsWith_append_of kBranch (kBranch ++ sp1) v (by decide))]
  simp only [lineVal_field kBranch v (by decide) hsub hstrip]
  rw [if_neg hnull, hsan]

theorem applyField_session (t : RawTask) (m : Int) (v : PyStr)
    (hsub : Py.hasSub kSession (' ' :: v) = false) (hstrip : Py.strip v = v)
    (hnull : ¬ (v = nullLit)) :
    applyField t m ((kSession ++ sp1) ++ v) = ({ t with session := some v }, m) := by
  unfold applyField
  rw [if_neg (sw_field_false kTaskId (kSession ++ sp1) v (by decide) (by decide))]
  rw [if_neg (sw_field_false kStatus (kSession ++ sp1) v (by decide) (by decide))]
  rw [if_neg (sw_field_false kBranch (kSession ++ sp1) v (by decide) (by decide))]
  rw [if_pos (startsWith_append_of kSession (kSession ++ sp1) v (by decide))]
  simp only [lineVal_field kSession v (by decide) hsub hstrip]
  rw [if_neg hnull]

theorem applyField_session_null (t : RawTask) (m : Int) :
    applyField t m ((kSession ++ sp1) ++ nullLit) = (t, m) := by
  unfold applyField
  rw [if_neg (sw_field_false kTaskId (kSession ++ sp1) nullLit (by decide) (by decide))]
  rw [if_neg (sw_field_false kStatus (kSession ++ sp1) nullLit (by decide) (by decide))]
  rw [if_neg (sw_field_false kBranch (kSession ++ sp1) nullLit (by decide) (by decide))]
  rw [if_pos (startsWith_append_of kSession (kSession ++ sp1) nullLit (by decide))]
  simp only [lineVal_field kSession nullLit (by decide) (by decide) (by decide)]
  simp

theorem applyField_description (t : RawTask) (m : Int) (v : PyStr)
    (hsub : Py.hasSub kDescription (' ' :: v) = false) (hstrip : Py.strip v = v) :
    applyField t m ((kDescription ++ sp1) ++ v)
      = ({ t with description := some v }, m) := by
  unfold applyField
  rw [if_neg (sw_field_false kTaskId (kDescription ++ sp1) v (by decide) (by decide))]
  rw [if_neg (sw_field_false kStatus (kDescription ++ sp1) v (by decide) (by decide))]
  rw [if_neg (sw_field_false kBranch (kDescription ++ sp1) v (by decide) (by decide))]
  rw [if_neg (sw_field_false kSession (kDescription ++ sp1) v (by decide) (by decide))]
  rw [if_pos (startsWith_append_of kDescription (kDescription ++ sp1) v (by decide))]
  rw [lineVal_field kDescription v (by decide) hsub hstrip]

theorem applyField_prompt (t : RawTask) (m : Int) (v : PyStr)
    (hsub : Py.hasSub kPrompt (' ' :: v) = false) (hstrip : Py.strip v = v) :
    applyField t m ((kPrompt ++ sp1) ++ v) = ({ t with prompt := some v }, m) := by
  unfold applyField
  rw [if_neg (sw_field_false kTaskId (kPrompt ++ sp1) v (by decide) (by decide))]
  rw [if_neg (sw_field_false kStatus (kPrompt ++ sp1) v (by decide) (by decide))]
  rw [if_neg (sw_field_false kBranch (kPrompt ++ sp1) v (by decide) (by decide))]
  rw [if_neg (sw_field_false kSession (kPrompt ++ sp1) v (by decide) (by decide))]
  rw [if_neg (sw_field_false kDescription (kPrompt ++ sp1) v (by decide) (by decide))]
  rw [if_pos (startsWith_append_of kPrompt (kPrompt ++ sp1) v (by decide))]
  rw [lineVal_field kPrompt v (by decide) hsub hstrip]

theorem applyField_deps (t : RawTask) (m : Int) (v : PyStr)
    (hsub : Py.hasSub kDependencies (' ' :: v) = false) (hstrip : Py.strip v = v)
    (hne : v ≠ []) (hnel : v ≠ emptyListLit) :
    applyField t m ((kDependencies ++ sp1) ++ v)
      = ({ t with dependencies := parseBracketList v }, m) := by
  unfold applyField
  rw [if_neg (sw_field_false kTaskId (kDependencies ++ sp1) v (by decide) (by decide))]
  rw [if_neg (sw_field_false kStatus (kDependencies ++ sp1) v (by decide) (by decide))]
  rw [if_neg (sw_field_false kBranch (kDependencies ++ sp1) v (by decide) (by decide))]
  rw [if_neg (sw_field_false kSession (kDependencies ++ sp1) v (by decide) (by decide))]
  rw [if_neg (sw_field_false kDescription (kDependencies ++ sp1) v (by decide) (by decide))]
  rw [if_neg (sw_field_false kPrompt (kDependencies ++ sp1) v (by decide) (by decide))]
  rw [if_pos (startsWith_append_of kDependencies (kDependencies ++ sp1) v (by decide))]
  simp only [lineVal_field kDependencies v (by decide) hsub hstrip]
  rw [if_pos ⟨hne, hnel⟩]

theorem applyField_priorityLine (t : RawTask) (m : Int) (v : PyStr)
    (hsub : Py.hasSub kPriority (' ' :: v) = false) (hstrip : Py.strip v = v)
    (n : Int) (htoInt : Py.toInt v = some n) :
    applyField t m ((kPriority ++ sp1) ++ v) = ({ t with priority := n }, m) := by
  unfold applyField
  rw [if_neg (sw_field_false kTaskId (kPriority ++ sp1) v (by decide) (by decide))]
  rw [if_neg (sw_field_false kStatus (kPriority ++ sp1) v (by decide) (by decide))]
  rw [if_neg (sw_field_false kBranch (kPriority ++ sp1) v (by decide) (by decide))]
  rw [if_neg (sw_field_false kSession (kPriority ++ sp1) v (by decide) (by decide))]
  rw [if_neg (sw_field_false kDescription (kPriority ++ sp1) v (by decide) (by decide))]
  rw [if_neg (sw_field_false kPrompt (kPriority ++ sp1) v (by decide) (by decide))]
  rw [if_neg (sw_field_false kDependencies (kPriority ++ sp1) v (by decide) (by decide))]
  rw [if_pos (startsWith_append_of kPriority (kPriority ++ sp1) v (by decide))]
  rw [lineVal_field kPriority v (by decide) hsub hstrip, htoInt]

theorem applyField_mergeOrder (t : RawTask) (m : Int) (v : PyStr)
    (hsub : Py.hasSub kMergeOrder (' ' :: v) = false) (hstrip : Py.strip v = v)
    (n : Int) (htoInt : Py.toInt v = some n) :
    applyField t m ((kMergeOrder ++ sp1) ++ v) = ({ t with merge_order := n }, m) := by
  unfold applyField
  rw [if_neg (sw_field_false kTaskId (kMergeOrder ++ sp1) v (by decide) (by decide))]
  rw [if_neg (sw_field_false kStatus (kMergeOrder ++ sp1) v (by decide) (by decide))]
  rw [if_neg (sw_field_false kBranch (kMergeOrder ++ sp1) v (by decide) (by decide))]
  rw [if_neg (sw_field_false kSession (kMergeOrder ++ sp1) v (by decide) (by decide))]
  rw [if_neg (sw_field_false kDescription (kMergeOrder ++ sp1) v (by decide) (by decide))]
  rw [if_neg (sw_field_false kPrompt (kMergeOrder ++ sp1) v (by decide) (by decide))]
  rw [if_neg (sw_field_false kDependencies (kMergeOrder ++ sp1) v (by decide) (by decide))]
  rw [if_neg (sw_field_false kPriority (kMergeOrder ++ sp1) v (by decide) (by decide))]
  rw [if_pos (startsWith_append_of kMergeOrder (kMergeOrder ++ sp1) v (by decide))]
  rw [lineVal_field kMergeOrder v (by decide) hsub hstrip, htoInt]

theorem applyField_exclusive (t : RawTask) (m : Int) (v : PyStr)
    (hsub : Py.hasSub kExclusive (' ' :: v) = false) (hstrip : Py.strip v = v)
    (hne : v ≠ []) (hnel : v ≠ emptyListLit) :
    applyField t m ((kExclusive ++ sp1) ++ v)
      = ({ t with exclusive_files := parseBracketList v }, m) := by
  unfold applyField
  rw [if_neg (sw_field_false kTaskId (kExclusive ++ sp1) v (by decide) (by decide))]
  rw [if_neg (sw_field_false kStatus (kExclusive ++ sp1) v (by decide) (by decide))]
  rw [if_neg (sw_field_false kBranch (kExclusive ++ sp1) v (by decide) (by decide))]
  rw [if_neg (sw_field_false kSession (kExclusive ++ sp1) v (by decide) (by decide))]
  rw [if_neg (sw_field_false kDescription (kExclusive ++ sp1) v (by decide) (by decide))]
  rw [if_neg (sw_field_false kPrompt (kExclusive ++ sp1) v (by decide) (by decide))]
  rw [if_neg (sw_field_false kDependencies (kExclusive ++ sp1) v (by decide) (by decide))]
  rw [if_neg (sw_field_false kPriority (kExclusive ++ sp1) v (by decide) (by decide))]
  rw [if_neg (sw_field_false kMergeOrder (kExclusive ++ sp1) v (by decide) (by decide))]
  rw [if_pos (startsWith_append_of kExclusive (kExclusive ++ sp1) v (by decide))]
  simp only [lineVal_field kExclusive v (by decide) hsub hstrip]
  rw [if_pos ⟨hne, hnel⟩]

theorem applyField_shared (t : RawTask) (m : Int) (v : PyStr)
    (hsub : Py.hasSub kShared (' ' :: v) = false) (hstrip : Py.strip v = v)
    (hne : v ≠ []) (hnel : v ≠ emptyListLit) :
    applyField t m ((kShared ++ sp1) ++ v)
      = ({ t with shared_files := parseBracketList v }, m) := by
  unfold applyField
  rw [if_neg (sw_field_false kTaskId (kShared ++ sp1) v (by decide) (by decide))]
  rw [if_neg (sw_field_false kStatus (kShared ++ sp1) v (by decide) (by decide))]
  rw [if_neg (sw_field_false kBranch (kShared ++ sp1) v (by decide) (by decide))]
  rw [if_neg (sw_field_false kSession (kShared ++ sp1) v (by decide) (by decide))]
  rw [if_neg (sw_field_false kDescription (kShared ++ sp1) v (by decide) (by decide))]
  rw [if_neg (sw_field_false kPrompt (kShared ++ sp1) v (by decide) (by decide))]
  rw [if_neg (sw_field_false kDependencies (kShared ++ sp1) v (by decide) (by decide))]
  rw [if_neg (sw_field_false kPriority (kShared ++ sp1) v (by decide) (by decide))]
  rw [if_neg (sw_field_false kMergeOrder (kShared ++ sp1) v (by decide) (by decide))]
  rw [if_neg (sw_field_false kExclusive (kShared ++ sp1) v (by decide) (by decide))]
  rw [if_pos (startsWith_append_of kShared (kShared ++ sp1) v (by decide))]
  simp only [lineVal_field kShared v (by decide) hsub hstrip]
  rw [if_pos ⟨hne, hnel⟩]

theorem applyField_init (t : RawTask) (m : Int) (v : PyStr)
    (hsub : Py.hasSub kInit (' ' :: v) = false) (hstrip : Py.strip v = v)
    (hne : v ≠ []) (hnel : v ≠ emptyListLit) :
    applyField t m ((kInit ++ sp1) ++ v)
      = ({ t with initialization_deps := parseBracketList v }, m) := by
  unfold applyField
  rw [if_neg (sw_field_false kTaskId (kInit ++ sp1) v (by decide) (by decide))]
  rw [if_neg (sw_field_false kStatus (kInit ++ sp1) v (by decide) (by decide))]
  rw [if_neg (sw_field_false kBranch (kInit ++ sp1) v (by decide) (by decide))]
  rw [if_neg (sw_field_false kSession (kInit ++ sp1) v (by decide) (by decide))]
  rw [if_neg (sw_field_false kDescription (kInit ++ sp1) v (by decide) (by decide))]
  rw [if_neg (sw_field_false kPrompt (kInit ++ sp1) v (by decide) (by decide))]
  rw [if_neg (sw_field_false kDependencies (kInit ++ sp1) v (by decide) (by decide))]
  rw [if_neg (sw_field_false kPriority (kInit ++ sp1) v (by decide) (by decide))]
  rw [if_neg (sw_field_false kMergeOrder (kInit ++ sp1) v (by decide) (by decide))]
  rw [if_neg (sw_field_false kExclusive (kInit ++ sp1) v (by decide) (by decide))]
  rw [if_neg (sw_field_false kShared (kInit ++ sp1) v (by decide) (by decide))]
  rw [if_pos (startsWith_append_of kInit (kInit ++ sp1) v (by decide))]
  simp only [lineVal_field kInit v (by decide) hsub hstrip]
  rw [if_pos ⟨hne, hnel⟩]

/-! Evaluation of `lineStep` on the three shapes of serialized line. -/

theorem lineStep_blank (st : PState) : lineStep st [] = st := by
  obtain ⟨A, cur, M⟩ := st
  cases cur <;> rfl

theorem lineStep_field (A : List RawTask) (r : RawTask) (M : Int)
    (line : PyStr) (hstrip : Py.strip line = line)
    (hnh : Py.startsWith kHeader line = false)
    (hd : Py.startsWith kDash line = true) :
    lineStep ⟨A, some r, M⟩ line
      = ⟨A, some (applyField r M line).1, (applyField r M line).2⟩ := by
  unfold lineStep
  rw [hstrip, if_neg (ne_true_of_eq_false hnh)]
  dsimp only
  rw [if_pos hd]

theorem lineStep_header (st : PState) (title : PyStr)
    (hstrip : Py.strip ((kHeader ++ sp1) ++ title) = (kHeader ++ sp1) ++ title)
    (hval : lineVal kHeader ((kHeader ++ sp1) ++ title) = title) :
    lineStep st ((kHeader ++ sp1) ++ title)
      = ⟨flushCur st, some (initRaw title), st.maxId⟩ := by
  unfold lineStep
  rw [hstrip, if_pos (startsWith_append_of kHeader (kHeader ++ sp1) title (by decide)),
    hval]

theorem strip_key_line (key v : PyStr) (c : Char) (krest : PyStr) (hk : key = c :: krest)
    (hc : Py.isSpaceChar c = false) (hv : v ≠ []) (hstrip : Py.strip v = v) :
    Py.strip ((key ++ sp1) ++ v) = (key ++ sp1) ++ v := by
  subst hk
  exact strip_field_line c krest v hc hv hstrip

theorem startsWith_header_field (key v : PyStr)
    (h1 : Py.startsWith kHeader (key ++ sp1) = false)
    (h2 : Py.startsWith (key ++ sp1) kHeader = false) :
    Py.startsWith kHeader ((key ++ sp1) ++ v) = false :=
  startsWith_append_ne kHeader (key ++ sp1) v h1 h2

/-- The dictionary a parsed block reduces to, for a well-formed task. -/
def rawOf (t : Task) : RawTask :=
  { id := t.id, task_id := t.task_id, title := t.title, status := t.status,
    branch := some t.branch, session := t.session, description := t.description,
    prompt := t.prompt, dependencies := t.dependencies, priority := t.priority,
    merge_order := t.merge_order, exclusive_files := t.exclusive_files,
    shared_files := t.shared_files, initialization_deps := t.initialization_deps }

/-- The lines a task's serialized block contributes to the saved file. -/
def blockOf (t : Task) : List PyStr :=
  [[], (kHeader ++ sp1) ++ t.title, []] ++ taskLines t ++ [[]]

theorem hasSub_space_key (key v : PyStr) {c : Char} {krest : PyStr} (hk : key = c :: krest)
    (hc : (c == ' ') = false) (h : Py.hasSub key v = false) :
    Py.hasSub key (' ' :: v) = false := by
  subst hk
  exact hasSub_space_cons c krest v hc h

/-! Record updates that change nothing, for the absent-field branches. -/

theorem update_session_self (r : RawTask) (o : Option PyStr) (h : r.session = o) :
    ({ r with session := o } : RawTask) = r := by
  cases r
  cases h
  rfl

theorem update_description_self (r : RawTask) (o : Option PyStr) (h : r.description = o) :
    ({ r with description := o } : RawTask) = r := by
  cases r
  cases h
  rfl

theorem update_prompt_self (r : RawTask) (o : Option PyStr) (h : r.prompt = o) :
    ({ r with prompt := o } : RawTask) = r := by
  cases r
  cases h
  rfl

theorem update_dependencies_self (r : RawTask) (xs : List PyStr) (h : r.dependencies = xs) :
    ({ r with dependencies := xs } : RawTask) = r := by
  cases r
  cases h
  rfl

theorem update_priority_self (r : RawTask) (p : Int) (h : r.priority = p) :
    ({ r with priority := p } : RawTask) = r := by
  cases r
  cases h
  rfl

theorem update_mergeOrder_self (r : RawTask) (p : Int) (h : r.merge_order = p) :
    ({ r with merge_order := p } : RawTask) = r := by
  cases r
  cases h
  rfl

theorem update_exclusive_self (r : RawTask) (xs : List PyStr) (h : r.exclusive_files = xs) :
    ({ r with exclusive_files := xs } : RawTask) = r := by
  cases r
  cases h
  rfl

theorem update_shared_self (r : RawTask) (xs : List PyStr) (h : r.shared_files = xs) :
    ({ r with shared_files := xs } : RawTask) = r := by
  cases r
  cases h
  rfl

theorem update_initDeps_self (r : RawTask) (xs : List PyStr) (h : r.initialization_deps = xs) :
    ({ r with initialization_deps := xs } : RawTask) = r := by
  cases r
  cases h
  rfl

/-! `lineStep` on each serialized field line. -/

theorem lineStep_taskIdL (A : List RawTask) (r : RawTask) (M n : Int) :
    lineStep ⟨A, some r, M⟩ ((kTaskId ++ sp1) ++ Py.intRepr n)
      = ⟨A, some { r with task_id := some n }, max M n⟩ := by
  have hst := strip_intRepr n
  rw [lineStep_field A r M ((kTaskId ++ sp1) ++ Py.intRepr n)
      (strip_key_line kTaskId (Py.intRepr n) '-' _ rfl (by decide) (intRepr_ne_nil n) hst)
      (startsWith_header_field kTaskId (Py.intRepr n) (by decide) (by decide))
      (startsWith_append_of kDash (kTaskId ++ sp1) (Py.intRepr n) (by decide)),
    applyField_taskId r M (Py.intRepr n)
      (hasSub_space_key kTaskId (Py.intRepr n) rfl (by decide)
        (hasSub_intRepr kTaskId (by decide) n))
      hst n (toInt_intRepr n)]

theorem lineStep_statusL (A : List RawTask) (r : RawTask) (M : Int) (s : TaskStatus) :
    lineStep ⟨A, some r, M⟩ ((kStatus ++ sp1) ++ TaskStatus.value s)
      = ⟨A, some { r with status := s }, M⟩ := by
  have hne : TaskStatus.value s ≠ [] := by cases s <;> decide
  have hst : Py.strip (TaskStatus.value s) = TaskStatus.value s := by cases s <;> decide
  have hsub : Py.hasSub kStatus (' ' :: TaskStatus.value s) = false := by cases s <;> decide
  rw [lineStep_field A r M ((kStatus ++ sp1) ++ TaskStatus.value s)
      (strip_key_line kStatus (TaskStatus.value s) '-' _ rfl (by decide) hne hst)
      (startsWith_header_field kStatus (TaskStatus.value s) (by decide) (by decide))
      (startsWith_append_of kDash (kStatus ++ sp1) (TaskStatus.value s) (by decide)),
    applyField_status r M (TaskStatus.value s) hsub hst, statusOfStr_value s]
  rfl

theorem lineStep_branchL (A : List RawTask) (r : RawTask) (M : Int) (b : PyStr)
    (hbne : b ≠ []) (hbnull : b ≠ nullLit) (hbwf : WfStr b)
    (hbsan : sanitizeTaskId b = b) (hbsub : Py.hasSub kBranch b = false) :
    lineStep ⟨A, some r, M⟩ ((kBranch ++ sp1) ++ b)
      = ⟨A, some { r with branch := some b }, M⟩ := by
  rw [lineStep_field A r M ((kBranch ++ sp1) ++ b)
      (strip_key_line kBranch b '-' _ rfl (by decide) hbne hbwf.1)
      (startsWith_header_field kBranch b (by decide) (by decide))
      (startsWith_append_of kDash (kBranch ++ sp1) b (by decide)),
    applyField_branch r M b (hasSub_space_key kBranch b rfl (by decide) hbsub)
      hbwf.1 hbnull hbsan]

theorem lineStep_sessionNullL (A : List RawTask) (r : RawTask) (M : Int) :
    lineStep ⟨A, some r, M⟩ ((kSession ++ sp1) ++ nullLit) = ⟨A, some r, M⟩ := by
  rw [lineStep_field A r M ((kSession ++ sp1) ++ nullLit)
      (strip_key_line kSession nullLit '-' _ rfl (by decide) (by decide) (by decide))
      (startsWith_header_field kSession nullLit (by decide) (by decide))
      (startsWith_append_of kDash (kSession ++ sp1) nullLit (by decide)),
    applyField_session_null r M]

theorem lineStep_sessionSomeL (A : List RawTask) (r : RawTask) (M : Int) (s : PyStr)
    (hne : s ≠ []) (hnull : s ≠ nullLit) (hwf : WfStr s)
    (hsub : Py.hasSub kSession s = false) :
    lineStep ⟨A, some r, M⟩ ((kSession ++ sp1) ++ s)
      = ⟨A, some { r with session := some s }, M⟩ := by
  rw [lineStep_field A r M ((kSession ++ sp1) ++ s)
      (strip_key_line kSession s '-' _ rfl (by decide) hne hwf.1)
      (startsWith_header_field kSession s (by decide) (by decide))
      (startsWith_append_of kDash (kSession ++ sp1) s (by decide)),
    applyField_session r M s (hasSub_space_key kSession s rfl (by decide) hsub)
      hwf.1 hnull]

theorem lineStep_sessionVal (A : List RawTask) (r : RawTask) (M : Int)
    (o : Option PyStr) (ho : WfSession o) (hr : r.session = none) :
    lineStep ⟨A, some r, M⟩ ((kSession ++ sp1) ++ sessionVal o)
      = ⟨A, some { r with session := o }, M⟩ := by
  cases o with
  | none =>
    rw [show sessionVal none = nullLit from rfl, lineStep_sessionNullL A r M,
      update_session_self r none hr]
  | some s =>
    obtain ⟨h1, h2, h3, h4⟩ := ho
    rw [show sessionVal (some s) = if s = [] then nullLit else s from rfl, if_neg h1,
      lineStep_sessionSomeL A r M s h1 h2 h3 h4]

theorem lineStep_descriptionL (A : List RawTask) (r : RawTask) (M : Int) (d : PyStr)
    (hne : d ≠ []) (hwf : WfStr d) (hsub : Py.hasSub kDescription d = false) :
    lineStep ⟨A, some r, M⟩ ((kDescription ++ sp1) ++ d)
      = ⟨A, some { r with description := some d }, M⟩ := by
  rw [lineStep_field A r M ((kDescription ++ sp1) ++ d)
      (strip_key_line kDescription d '-' _ rfl (by decide) hne hwf.1)
      (startsWith_header_field kDescription d (by decide) (by decide))
      (startsWith_append_of kDash (kDescription ++ sp1) d (by decide)),
    applyField_description r M d (hasSub_space_key kDescription d rfl (by decide) hsub)
      hwf.1]

theorem lineStep_promptL (A : List RawTask) (r : RawTask) (M : Int) (p : PyStr)
    (hne : p ≠ []) (hwf : WfStr p) (hsub : Py.hasSub kPrompt p = false) :
    lineStep ⟨A, some r, M⟩ ((kPrompt ++ sp1) ++ p)
      = ⟨A, some { r with prompt := some p }, M⟩ := by
  rw [lineStep_field A r M ((kPrompt ++ sp1) ++ p)
      (strip_key_line kPrompt p '-' _ rfl (by decide) hne hwf.1)
      (startsWith_header_field kPrompt p (by decide) (by decide))
      (startsWith_append_of kDash (kPrompt ++ sp1) p (by decide)),
    applyField_prompt r M p (hasSub_space_key kPrompt p rfl (by decide) hsub) hwf.1]

theorem lineStep_priorityL (A : List RawTask) (r : RawTask) (M p : Int) :
    lineStep ⟨A, some r, M⟩ ((kPriority ++ sp1) ++ Py.intRepr p)
      = ⟨A, some { r with priority := p }, M⟩ := by
  have hst := strip_intRepr p
  rw [lineStep_field A r M ((kPriority ++ sp1) ++ Py.intRepr p)
      (strip_key_line kPriority (Py.intRepr p) '-' _ rfl (by decide) (intRepr_ne_nil p) hst)
      (startsWith_header_field kPriority (Py.intRepr p) (by decide) (by decide))
      (startsWith_append_of kDash (kPriority ++ sp1) (Py.intRepr p) (by decide)),
    applyField_priorityLine r M (Py.intRepr p)
      (hasSub_space_key kPriority (Py.intRepr p) rfl (by decide)
        (hasSub_intRepr kPriority (by decide) p))
      hst p (toInt_intRepr p)]

theorem lineStep_mergeOrderL (A : List RawTask) (r : RawTask) (M p : Int) :
    lineStep ⟨A, some r, M⟩ ((kMergeOrder ++ sp1) ++ Py.intRepr p)
      = ⟨A, some { r with merge_order := p }, M⟩ := by
  have hst := strip_intRepr p
  rw [lineStep_field A r M ((kMergeOrder ++ sp1) ++ Py.intRepr p)
      (strip_key_line kMergeOrder (Py.intRepr p) '-' _ rfl (by decide) (intRepr_ne_nil p) hst)
      (startsWith_header_field kMergeOrder (Py.intRepr p) (by decide) (by decide))
      (startsWith_append_of kDash (kMergeOrder ++ sp1) (Py.intRepr p) (by decide)),
    applyField_mergeOrder r M (Py.intRepr p)
      (hasSub_space_key kMergeOrder (Py.intRepr p) rfl (by decide)
        (hasSub_intRepr kMergeOrder (by decide) p))
      hst p (toInt_intRepr p)]

theorem lineStep_depsL (A : List RawTask) (r : RawTask) (M : Int) (xs : List PyStr)
    (hxs : xs ≠ []) (hx : WfList kDependencies xs) :
    lineStep ⟨A, some r, M⟩ ((kDependencies ++ sp1) ++ brackets xs)
      = ⟨A, some { r with dependencies := xs }, M⟩ := by
  obtain ⟨hel, hb1, hb2, hsub⟩ := hx
  have hJne : Py.pyJoin commaSpace xs ≠ [] := by
    cases xs with
    | nil => exact absurd rfl hxs
    | cons e rest => exact pyJoin_ne_nil e rest (hel e (List.mem_cons_self _ _)).1
  rw [lineStep_field A r M ((kDependencies ++ sp1) ++ brackets xs)
      (strip_key_line kDependencies (brackets xs) '-' _ rfl (by decide) (brackets_ne_nil xs)
        (strip_brackets xs))
      (startsWith_header_field kDependencies (brackets xs) (by decide) (by decide))
      (startsWith_append_of kDash (kDependencies ++ sp1) (brackets xs) (by decide)),
    applyField_deps r M (brackets xs)
      (hasSub_space_key kDependencies (brackets xs) rfl (by decide) hsub)
      (strip_brackets xs) (brackets_ne_nil xs) (brackets_ne_emptyList xs hJne),
    parseBracketList_brackets xs hxs hel hb1 hb2]

theorem lineStep_exclusiveL (A : List RawTask) (r : RawTask) (M : Int) (xs : List PyStr)
    (hxs : xs ≠ []) (hx : WfList kExclusive xs) :
    lineStep ⟨A, some r, M⟩ ((kExclusive ++ sp1) ++ brackets xs)
      = ⟨A, some { r with exclusive_files := xs }, M⟩ := by
  obtain ⟨hel, hb1, hb2, hsub⟩ := hx
  have hJne : Py.pyJoin commaSpace xs ≠ [] := by
    cases xs with
    | nil => exact absurd rfl hxs
    | cons e rest => exact pyJoin_ne_nil e rest (hel e (List.mem_cons_self _ _)).1
  rw [lineStep_field A r M ((kExclusive ++ sp1) ++ brackets xs)
      (strip_key_line kExclusive (brackets xs) '-' _ rfl (by decide) (brackets_ne_nil xs)
        (strip_brackets xs))
      (startsWith_header_field kExclusive (brackets xs) (by decide) (by decide))
      (startsWith_append_of kDash (kExclusive ++ sp1) (brackets xs) (by decide)),
    applyField_exclusive r M (brackets xs)
      (hasSub_space_key kExclusive (brackets xs) rfl (by decide) hsub)
      (strip_brackets xs) (brackets_ne_nil xs) (brackets_ne_emptyList xs hJne),
    parseBracketList_brackets xs hxs hel hb1 hb2]

theorem lineStep_sharedL (A : List RawTask) (r : RawTask) (M : Int) (xs : List PyStr)
    (hxs : xs ≠ []) (hx : WfList kShared xs) :
    lineStep ⟨A, some r, M⟩ ((kShared ++ sp1) ++ brackets xs)
      = ⟨A, some { r with shared_files := xs }, M⟩ := by
  obtain ⟨hel, hb1, hb2, hsub⟩ := hx
  have hJne : Py.pyJoin commaSpace xs ≠ [] := by
    cases xs with
    | nil => exact absurd rfl hxs
    | cons e rest => exact pyJoin_ne_nil e rest (hel e (List.mem_cons_self _ _)).1
  rw [lineStep_field A r M ((kShared ++ sp1) ++ brackets xs)
      (strip_key_line kShared (brackets xs) '-' _ rfl (by decide) (brackets_ne_nil xs)
        (strip_brackets xs))
      (startsWith_header_field kShared (brackets xs) (by decide) (by decide))
      (startsWith_append_of kDash (kShared ++ sp1) (brackets xs) (by decide)),
    applyField_shared r M (brackets xs)
      (hasSub_space_key kShared (brackets xs) rfl (by decide) hsub)
      (strip_brackets xs) (brackets_ne_nil xs) (brackets_ne_emptyList xs hJne),
    parseBracketList_brackets xs hxs hel hb1 hb2]

theorem lineStep_initL (A : List RawTask) (r : RawTask) (M : Int) (xs : List PyStr)
    (hxs : xs ≠ []) (hx : WfList kInit xs) :
    lineStep ⟨A, some r, M⟩ ((kInit ++ sp1) ++ brackets xs)
      = ⟨A, some { r with initialization_deps := xs }, M⟩ := by
  obtain ⟨hel, hb1, hb2, hsub⟩ := hx
  have hJne : Py.pyJoin commaSpace xs ≠ [] := by
    cases xs with
    | nil => exact absurd rfl hxs
    | cons e rest => exact pyJoin_ne_nil e rest (hel e (List.mem_cons_self _ _)).1
  rw [lineStep_field A r M ((kInit ++ sp1) ++ brackets xs)
      (strip_key_line kInit (brackets xs) '-' _ rfl (by decide) (brackets_ne_nil xs)
        (strip_brackets xs))
      (startsWith_header_field kInit (brackets xs) (by decide) (by decide))
      (startsWith_append_of kDash (kInit ++ sp1) (brackets xs) (by decide)),
    applyField_init r M (brackets xs)
      (hasSub_space_key kInit (brackets xs) rfl (by decide) hsub)
      (strip_brackets xs) (brackets_ne_nil xs) (brackets_ne_emptyList xs hJne),
    parseBracketList_brackets xs hxs hel hb1 hb2]

/-! Folding `lineStep` over each optional serialized segment. -/

theorem foldl_descSeg (A : List RawTask) (r : RawTask) (M : Int) (o : Option PyStr)
    (ho : WfOptStr kDescription o) (hr : r.description = none) :
    List.foldl lineStep ⟨A, some r, M⟩ (optLine kDescription o)
      = ⟨A, some { r with description := o }, M⟩ := by
  cases o with
  | none =>
    rw [show optLine kDescription none = [] from rfl]
    simp only [List.foldl_nil]
    rw [update_description_self r none hr]
  | some d =>
    obtain ⟨h1, h2, h3⟩ := ho
    rw [show optLine kDescription (some d)
          = if d ≠ [] then [(kDescription ++ sp1) ++ d] else [] from rfl,
      if_pos h1]
    simp only [List.foldl_cons, List.foldl_nil]
    exact lineStep_descriptionL A r M d h1 h2 h3

theorem foldl_promptSeg (A : List RawTask) (r : RawTask) (M : Int) (o : Option PyStr)
    (ho : WfOptStr kPrompt o) (hr : r.prompt = none) :
    List.foldl lineStep ⟨A, some r, M⟩ (optLine kPrompt o)
      = ⟨A, some { r with prompt := o }, M⟩ := by
  cases o with
  | none =>
    rw [show optLine kPrompt none = [] from rfl]
    simp only [List.foldl_nil]
    rw [update_prompt_self r none hr]
  | some d =>
    obtain ⟨h1, h2, h3⟩ := ho
    rw [show optLine kPrompt (some d)
          = if d ≠ [] then [(kPrompt ++ sp1) ++ d] else [] from rfl,
      if_pos h1]
    simp only [List.foldl_cons, List.foldl_nil]
    exact lineStep_promptL A r M d h1 h2 h3

theorem foldl_priSeg (A : List RawTask) (r : RawTask) (M p : Int)
    (hp : 0 ≤ p) (hr : r.priority = 0) :
    List.foldl lineStep ⟨A, some r, M⟩ (intLine kPriority p)
      = ⟨A, some { r with priority := p }, M⟩ := by
  unfold intLine
  by_cases h : 0 < p
  · rw [if_pos h]
    simp only [List.foldl_cons, List.foldl_nil]
    exact lineStep_priorityL A r M p
  · rw [if_neg h]
    simp only [List.foldl_nil]
    have hp0 : p = 0 := by omega
    rw [update_priority_self r p (by rw [hr, hp0])]

theorem foldl_moSeg (A : List RawTask) (r : RawTask) (M p : Int)
    (hp : 0 ≤ p) (hr : r.merge_order = 0) :
    List.foldl lineStep ⟨A, some r, M⟩ (intLine kMergeOrder p)
      = ⟨A, some { r with merge_order := p }, M⟩ := by
  unfold intLine
  by_cases h : 0 < p
  · rw [if_pos h]
    simp only [List.foldl_cons, List.foldl_nil]
    exact lineStep_mergeOrderL A r M p
  · rw [if_neg h]
    simp only [List.foldl_nil]
    have hp0 : p = 0 := by omega
    rw [update_mergeOrder_self r p (by rw [hr, hp0])]

theorem foldl_depsSeg (A : List RawTask) (r : RawTask) (M : Int) (xs : List PyStr)
    (hx : WfList kDependencies xs) (hr : r.dependencies = []) :
    List.foldl lineStep ⟨A, some r, M⟩ (listLine kDependencies xs)
      = ⟨A, some { r with dependencies := xs }, M⟩ := by
  unfold listLine
  by_cases h : xs = []
  · rw [if_neg (by simp [h])]
    simp only [List.foldl_nil]
    rw [update_dependencies_self r xs (by rw [hr, h])]
  · rw [if_pos h]
    simp only [List.foldl_cons, List.foldl_nil]
    exact lineStep_depsL A r M xs h hx

theorem foldl_exclSeg (A : List RawTask) (r : RawTask) (M : Int) (xs : List PyStr)
    (hx : WfList kExclusive xs) (hr : r.exclusive_files = []) :
    List.foldl lineStep ⟨A, some r, M⟩ (listLine kExclusive xs)
      = ⟨A, some { r with exclusive_files := xs }, M⟩ := by
  unfold listLine
  by_cases h : xs = []
  · rw [if_neg (by simp [h])]
    simp only [List.foldl_nil]
    rw [update_exclusive_self r xs (by rw [hr, h])]
  · rw [if_pos h]
    simp only [List.foldl_cons, List.foldl_nil]
    exact lineStep_exclusiveL A r M xs h hx

theorem foldl_shrSeg (A : List RawTask) (r : RawTask) (M : Int) (xs : List PyStr)
    (hx : WfList kShared xs) (hr : r.shared_files = []) :
    List.foldl lineStep ⟨A, some r, M⟩ (listLine kShared xs)
      = ⟨A, some { r with shared_files := xs }, M⟩ := by
  unfold listLine
  by_cases h : xs = []
  · rw [if_neg (by simp [h])]
    simp only [List.foldl_nil]
    rw [update_shared_self r xs (by rw [hr, h])]
  · rw [if_pos h]
    simp only [List.foldl_cons, List.foldl_nil]
    exact lineStep_sharedL A r M xs h hx

theorem foldl_initSeg (A : List RawTask) (r : RawTask) (M : Int) (xs : List PyStr)
    (hx : WfList kInit xs) (hr : r.initialization_deps = []) :
    List.foldl lineStep ⟨A, some r, M⟩ (listLine kInit xs)
      = ⟨A, some { r with initialization_deps := xs }, M⟩ := by
  unfold listLine
  by_cases h : xs = []
  · rw [if_neg (by simp [h])]
    simp only [List.foldl_nil]
    rw [update_initDeps_self r xs (by rw [hr, h])]
  · rw [if_pos h]
    simp only [List.foldl_cons, List.foldl_nil]
    exact lineStep_initL A r M xs h hx

/-- A well-formed task's serialized field lines rebuild exactly its raw
dictionary, starting from the fresh block of its header line. -/
theorem foldl_taskLines (t : Task) (hWf : WfTask t) (A : List RawTask) (M : Int)
    (n : Int) (hn : t.task_id = some n) :
    List.foldl lineStep ⟨A, some (initRaw t.title), M⟩ (taskLines t)
      = ⟨A, some (rawOf t), max M n⟩ := by
  obtain ⟨hTne, hTwf, hThd, hid, htid, hBne, hBnull, hBwf, hBsan, hBsub,
    hSess, hDesc, hPrompt, hDeps, hPrio, hMo, hExc, hShr, hInit⟩ := hWf
  have hR0 : initRaw t.title
      = (⟨t.id, none, t.title, .unclaimed, none, none, none, none, [], 0, 0, [], [], []⟩
          : RawTask) := by
    unfold initRaw
    rw [hid]
  unfold taskLines
  simp only [List.foldl_append, List.foldl_cons, List.foldl_nil]
  rw [hn, show optIntRepr (some n) = Py.intRepr n from rfl, hR0]
  rw [lineStep_taskIdL A _ M n]
  dsimp only
  rw [lineStep_statusL A _ (max M n) t.status]
  dsimp only
  rw [lineStep_branchL A _ (max M n) t.branch hBne hBnull hBwf hBsan hBsub]
  dsimp only
  rw [lineStep_sessionVal A
      (⟨t.id, some n, t.title, t.status, some t.branch, none, none, none, [], 0, 0, [], [], []⟩
        : RawTask) (max M n) t.session hSess rfl]
  dsimp only
  rw [foldl_descSeg A
      (⟨t.id, some n, t.title, t.status, some t.branch, t.session, none, none,
        [], 0, 0, [], [], []⟩ : RawTask) (max M n) t.description hDesc rfl]
  dsimp only
  rw [foldl_promptSeg A
      (⟨t.id, some n, t.title, t.status, some t.branch, t.session, t.description, none,
        [], 0, 0, [], [], []⟩ : RawTask) (max M n) t.prompt hPrompt rfl]
  dsimp only
  rw [foldl_depsSeg A
      (⟨t.id, some n, t.title, t.status, some t.branch, t.session, t.description, t.prompt,
        [], 0, 0, [], [], []⟩ : RawTask) (max M n) t.dependencies hDeps rfl]
  dsimp only
  rw [foldl_priSeg A
      (⟨t.id, some n, t.title, t.status, some t.branch, t.session, t.description, t.prompt,
        t.dependencies, 0, 0, [], [], []⟩ : RawTask) (max M n) t.priority hPrio rfl]
  dsimp only
  rw [foldl_moSeg A
      (⟨t.id, some n, t.title, t.status, some t.branch, t.session, t.description, t.prompt,
        t.dependencies, t.priority, 0, [], [], []⟩ : RawTask) (max M n) t.merge_order hMo rfl]
  dsimp only
  rw [foldl_exclSeg A
      (⟨t.id, some n, t.title, t.status, some t.branch, t.session, t.description, t.prompt,
        t.dependencies, t.priority, t.merge_order, [], [], []⟩ : RawTask)
      (max M n) t.exclusive_files hExc rfl]
  dsimp only
  rw [foldl_shrSeg A
      (⟨t.id, some n, t.title, t.status, some t.branch, t.session, t.description, t.prompt,
        t.dependencies, t.priority, t.merge_order, t.exclusive_files, [], []⟩ : RawTask)
      (max M n) t.shared_files hShr rfl]
  dsimp only
  rw [foldl_initSeg A
      (⟨t.id, some n, t.title, t.status, some t.branch, t.session, t.description, t.prompt,
        t.dependencies, t.priority, t.merge_order, t.exclusive_files, t.shared_files, []⟩
        : RawTask) (max M n) t.initialization_deps hInit rfl]
  dsimp only
  rw [show rawOf t
      = (⟨t.id, t.task_id, t.title, t.status, some t.branch, t.session, t.description,
          t.prompt, t.dependencies, t.priority, t.merge_order, t.exclusive_files,
          t.shared_files, t.initialization_deps⟩ : RawTask) from rfl, hn]

/-- One well-formed serialized block, folded through the parser, flushes the
previous block and leaves the task's raw dictionary current. -/
theorem foldl_blockOf (t : Task) (hWf : WfTask t) (st : PState) :
    ∃ M', List.foldl lineStep st (blockOf t) = ⟨flushCur st, some (rawOf t), M'⟩ := by
  obtain ⟨n, hn⟩ : ∃ n, t.task_id = some n := by
    cases htid : t.task_id with
    | none => exact absurd htid hWf.2.2.2.2.1
    | some k => exact ⟨k, rfl⟩
  refine ⟨max st.maxId n, ?_⟩
  unfold blockOf
  simp only [List.foldl_append, List.foldl_cons, List.foldl_nil]
  rw [lineStep_blank st]
  have hsubT : Py.hasSub kHeader (' ' :: t.title) = false :=
    hasSub_space_key kHeader t.title rfl (by decide) hWf.2.2.1
  have hstr : Py.strip ((kHeader ++ sp1) ++ t.title) = (kHeader ++ sp1) ++ t.title :=
    strip_key_line kHeader t.title '#' _ rfl (by decide) hWf.1 hWf.2.1.1
  have hval : lineVal kHeader ((kHeader ++ sp1) ++ t.title) = t.title :=
    lineVal_field kHeader t.title (by decide) hsubT hWf.2.1.1
  rw [lineStep_header st t.title hstr hval]
  rw [lineStep_blank ⟨flushCur st, some (initRaw t.title), st.maxId⟩]
  rw [foldl_taskLines t hWf (flushCur st) st.maxId n hn]
  rw [lineStep_blank ⟨flushCur st, some (rawOf t), max st.maxId n⟩]

/-- Folding the parser over a list of well-formed serialized blocks appends
exactly the tasks' raw dictionaries. -/
theorem foldl_blocks (ts : List Task) (h : ∀ t ∈ ts, WfTask t) :
    ∀ (st : PState), ∃ st' : PState,
      List.foldl lineStep st (ts.flatMap blockOf) = st'
        ∧ flushCur st' = flushCur st ++ ts.map rawOf := by
  induction ts with
  | nil =>
    intro st
    exact ⟨st, by simp, by simp⟩
  | cons t rest ih =>
    intro st
    obtain ⟨M', hM⟩ := foldl_blockOf t (h t (List.mem_cons_self _ _)) st
    obtain ⟨st', hst', hflush⟩ :=
      ih (fun x hx => h x (List.mem_cons_of_mem _ hx)) ⟨flushCur st, some (rawOf t), M'⟩
    refine ⟨st', ?_, ?_⟩
    · rw [List.flatMap_cons, List.foldl_append, hM, hst']
    · rw [hflush,
        show flushCur ⟨flushCur st, some (rawOf t), M'⟩ = flushCur st ++ [rawOf t] from rfl,
        List.append_assoc]
      rfl

theorem assignIds_of_some (m : Int) (l : List RawTask) (h : ∀ r ∈ l, r.task_id ≠ none) :
    assignIds m l = l := by
  induction l generalizing m with
  | nil => rfl
  | cons r rest ih =>
    unfold assignIds
    cases hr : r.task_id with
    | none => exact absurd hr (h r (List.mem_cons_self _ _))
    | some k =>
      dsimp only
      rw [ih m (fun x hx => h x (List.mem_cons_of_mem _ hx))]

theorem finalize_map_rawOf (l : List Task) : finalize (l.map rawOf) = l := by
  induction l with
  | nil => rfl
  | cons t rest ih =>
    simp only [List.map_cons]
    rw [show finalize (rawOf t :: rest.map rawOf) = t :: finalize (rest.map rawOf) from rfl,
      ih]

theorem mem_optLine (key : PyStr) (o : Option PyStr) (l : PyStr) (hl : l ∈ optLine key o) :
    ∃ d, o = some d ∧ d ≠ [] ∧ l = (key ++ sp1) ++ d := by
  cases o with
  | none => simp [optLine] at hl
  | some d =>
    rw [show optLine key (some d) = if d ≠ [] then [(key ++ sp1) ++ d] else [] from rfl] at hl
    by_cases h : d ≠ []
    · rw [if_pos h] at hl
      refine ⟨d, rfl, h, ?_⟩
      simpa using hl
    · rw [if_neg h] at hl
      simp at hl

theorem mem_listLine (key : PyStr) (xs : List PyStr) (l : PyStr) (hl : l ∈ listLine key xs) :
    l = (key ++ sp1) ++ brackets xs := by
  unfold listLine at hl
  by_cases h : xs ≠ []
  · rw [if_pos h] at hl
    simpa using hl
  · rw [if_neg h] at hl
    simp at hl

theorem mem_intLine (key : PyStr) (p : Int) (l : PyStr) (hl : l ∈ intLine key p) :
    l = (key ++ sp1) ++ Py.intRepr p := by
  unfold intLine at hl
  by_cases h : 0 < p
  · rw [if_pos h] at hl
    simpa using hl
  · rw [if_neg h] at hl
    simp at hl

/-- No serialized field line of a well-formed task contains a newline. -/
theorem noNL_taskLines (t : Task) (hWf : WfTask t) : ∀ l ∈ taskLines t, '\n' ∉ l := by
  obtain ⟨hTne, hTwf, hThd, hid, htid, hBne, hBnull, hBwf, hBsan, hBsub,
    hSess, hDesc, hPrompt, hDeps, hPrio, hMo, hExc, hShr, hInit⟩ := hWf
  intro l hl
  unfold taskLines at hl
  simp only [List.mem_append, List.mem_cons, List.not_mem_nil, or_false] at hl
  rcases hl with ((((((((h1 | h2 | h3 | h4) | h5) | h6) | h7) | h8) | h9) | h10) | h11) | h12
  · subst h1
    obtain ⟨n, hn⟩ : ∃ n, t.task_id = some n := by
      cases htide : t.task_id with
      | none => exact absurd htide htid
      | some k => exact ⟨k, rfl⟩
    rw [hn]
    exact noNL_field_line kTaskId _ (by decide) (noNL_intRepr n)
  · subst h2
    refine noNL_field_line kStatus _ (by decide) ?_
    cases t.status <;> decide
  · subst h3
    exact noNL_field_line kBranch _ (by decide) hBwf.2
  · subst h4
    refine noNL_field_line kSession _ (by decide) ?_
    cases hs : t.session with
    | none => decide
    | some s =>
      rw [hs] at hSess
      obtain ⟨hs1, hs2, hs3, hs4⟩ := hSess
      rw [show sessionVal (some s) = if s = [] then nullLit else s from rfl, if_neg hs1]
      exact hs3.2
  · obtain ⟨d, hdo, hdn, rfl⟩ := mem_optLine kDescription t.description l h5
    rw [hdo] at hDesc
    exact noNL_field_line kDescription d (by decide) hDesc.2.1.2
  · obtain ⟨d, hdo, hdn, rfl⟩ := mem_optLine kPrompt t.prompt l h6
    rw [hdo] at hPrompt
    exact noNL_field_line kPrompt d (by decide) hPrompt.2.1.2
  · rw [mem_listLine kDependencies t.dependencies l h7]
    exact noNL_field_line kDependencies _ (by decide)
      (noNL_brackets _ (fun e he => (hDeps.1 e he).2.1.2))
  · rw [mem_intLine kPriority t.priority l h8]
    exact noNL_field_line kPriority _ (by decide) (noNL_intRepr _)
  · rw [mem_intLine kMergeOrder t.merge_order l h9]
    exact noNL_field_line kMergeOrder _ (by decide) (noNL_intRepr _)
  · rw [mem_listLine kExclusive t.exclusive_files l h10]
    exact noNL_field_line kExclusive _ (by decide)
      (noNL_brackets _ (fun e he => (hExc.1 e he).2.1.2))
  · rw [mem_listLine kShared t.shared_files l h11]
    exact noNL_field_line kShared _ (by decide)
      (noNL_brackets _ (fun e he => (hShr.1 e he).2.1.2))
  · rw [mem_listLine kInit t.initialization_deps l h12]
    exact noNL_field_line kInit _ (by decide)
      (noNL_brackets _ (fun e he => (hInit.1 e he).2.1.2))

/-- Splitting one serialized block's items at newlines yields its block lines. -/
theorem splitChar_blockItems (t : Task) (hWf : WfTask t) :
    ((('\n' :: (kHeader ++ sp1 ++ t.title) ++ ['\n']) :: taskLines t ++ [[]])
        |>.flatMap (Py.splitChar '\n'))
      = blockOf t := by
  have hH : '\n' ∉ (kHeader ++ sp1) ++ t.title :=
    noNL_field_line kHeader t.title (by decide) hWf.2.1.2
  have hsplitTitle : Py.splitChar '\n' ('\n' :: (kHeader ++ sp1 ++ t.title) ++ ['\n'])
      = [[], (kHeader ++ sp1) ++ t.title, []] := by
    rw [show ('\n' :: (kHeader ++ sp1 ++ t.title) ++ (['\n'] : PyStr))
          = ('\n' :: ((kHeader ++ sp1) ++ t.title)) ++ '\n' :: [] from rfl,
      splitChar_append_sep,
      show ('\n' :: ((kHeader ++ sp1) ++ t.title))
          = [] ++ '\n' :: ((kHeader ++ sp1) ++ t.title) from rfl,
      splitChar_append_sep, splitChar_no_sep '\n' _ hH]
    rfl
  rw [List.flatMap_append, List.flatMap_cons, hsplitTitle,
    flatMap_splitChar_id (taskLines t) (noNL_taskLines t hWf)]
  rfl

theorem flatMap_split_blocks (l : List Task) (h : ∀ t ∈ l, WfTask t) :
    ((l.flatMap (fun t =>
        ('\n' :: (kHeader ++ sp1 ++ t.title) ++ ['\n']) :: taskLines t ++ [[]]))
          |>.flatMap (Py.splitChar '\n'))
      = l.flatMap blockOf := by
  induction l with
  | nil => rfl
  | cons t rest ih =>
    rw [List.flatMap_cons, List.flatMap_append,
      splitChar_blockItems t (h t (List.mem_cons_self _ _)),
      ih (fun x hx => h x (List.mem_cons_of_mem _ hx)), List.flatMap_cons]

/-- The lines read back from the saved file: the static header, a blank line,
then each sorted task's block. -/
theorem saveLines_eq (ts : List Task) (h : ∀ t ∈ sortTasks ts, WfTask t) :
    saveLines ts
      = ("# tasks.md").data :: ([] : PyStr) :: (sortTasks ts).flatMap blockOf := by
  unfold saveLines saveContent
  rw [splitChar_pyJoin '\n' _ (by simp), List.flatMap_cons,
    show Py.splitChar '\n' (("# tasks.md\n").data)
      = [("# tasks.md").data, []] from by decide,
    flatMap_split_blocks (sortTasks ts) h]
  rfl

/-- Parsing the saved form of a task list yields the sorted task list, when
every saved task is well formed. -/
theorem getTasks_saveLines (ts : List Task) (h : ∀ t ∈ sortTasks ts, WfTask t) :
    getTasks (saveLines ts) = sortTasks ts := by
  rw [saveLines_eq ts h]
  unfold getTasks
  simp only [List.foldl_cons]
  rw [show lineStep ⟨[], none, 0⟩ (("# tasks.md").data) = ⟨[], none, 0⟩ from rfl,
    lineStep_blank ⟨[], none, 0⟩]
  obtain ⟨st', hst', hflush⟩ := foldl_blocks (sortTasks ts) h ⟨[], none, 0⟩
  rw [hst']
  rw [show flushCur ⟨[], none, 0⟩ = ([] : List RawTask) from rfl] at hflush
  rw [hflush, List.nil_append]
  have hsome : ∀ r ∈ (sortTasks ts).map rawOf, r.task_id ≠ none := by
    intro r hr
    obtain ⟨t, ht, rfl⟩ := List.mem_map.mp hr
    exact (h t ht).2.2.2.2.1
  rw [assignIds_of_some _ _ hsome, finalize_map_rawOf]
  unfold sortTasks
  exact List.Sorted.insertionSort_eq (List.sorted_insertionSort taskLe ts)

theorem sortTasks_sortTasks (l : List Task) : sortTasks (sortTasks l) = sortTasks l := by
  unfold sortTasks
  exact List.Sorted.insertionSort_eq (List.sorted_insertionSort taskLe l)

/-- A task file whose parse is NOT reproduced by serialize-then-parse: the
explicit `- priority: -2` survives the first parse but `save_tasks` only
writes priority lines for positive priorities, so the reparse reads 0. -/
def C6cexLines : List PyStr :=
  [("## Task: Alpha").data,
   ("- task_id: 1").data,
   ("- branch: alpha").data,
   ("- priority: -2").data]

/-- C6 counterexample: `parse ∘ serialize ∘ parse = parse` fails on a task
file with a negative explicit priority (the saved file drops the priority
line, so the reparsed priority is the default 0, not -2). -/
theorem C6_cex_negative_priority :
    getTasks (saveLines (getTasks C6cexLines)) ≠ getTasks C6cexLines := by
  decide

/-- C6 (amended): for every task file whose parsed tasks are all well formed —
nonempty stripped single-line title free of `"## Task:"`, id equal to the
slugified title, an explicit `task_id`, a sanitize-fixed non-`null` branch,
optional fields nonempty and free of their own keys, comma-free bracket-list
elements with non-bracket boundaries, and nonnegative `priority` and
`merge_order` — parsing, re-serializing, and re-parsing yields exactly the
same task list as parsing once. -/
theorem C6_roundtrip_wf (lines : List PyStr)
    (h : ∀ t ∈ getTasks lines, WfTask t) :
    getTasks (saveLines (getTasks lines)) = getTasks lines := by
  have hsorted : ∀ t ∈ sortTasks (getTasks lines), WfTask t := by
    intro t ht
    apply h
    unfold sortTasks at ht
    exact (List.mem_insertionSort taskLe).mp ht
  rw [getTasks_saveLines (getTasks lines) hsorted]
  rw [show getTasks lines
      = sortTasks (finalize (assignIds (lines.foldl lineStep ⟨[], none, 0⟩).maxId
          (flushCur (lines.foldl lineStep ⟨[], none, 0⟩)))) from rfl,
    sortTasks_sortTasks]

/-- A concrete well-formed task file for the C6 witness. -/
def C6wLines : List PyStr :=
  [("## Task: Build API").data,
   ("- task_id: 2").data,
   ("- status: up_next").data,
   ("- branch: build-api").data,
   ("- priority: 3").data]

/-- C6 witness: the amended roundtrip theorem applied to a concrete task file
whose parsed task is well formed. -/
theorem C6_roundtrip_wf_witness :
    (∀ t ∈ getTasks C6wLines, WfTask t)
      ∧ getTasks (saveLines (getTasks C6wLines)) = getTasks C6wLines :=
  ⟨by decide, C6_roundtrip_wf C6wLines (by decide)⟩

end SM
